import Mathlib

/-!
Verification development for the feedback-normalization and AI-fallback
resolution layer of the resume-analysis application.

The embedding models JavaScript runtime values as the inductive type `JSVal`
and translates, directly from the source files, the functions

* `normalizeFeedbackA`  (first resume viewer's normalizeFeedback),
* `normalizeFeedbackB`  (second resume viewer's normalizeFeedback),
* `extractFeedbackText` (upload flow helper),
* `toAIResponseFromJSON`, `ollamaFeedback`, `feedbackFn` (provider fallback
  resolver in the store module),
* `pickUploaded` and `handleAnalyze` (upload flow persistence round trip).

Modeling decisions (documented restrictions of the shallow embedding):

* JSON numbers are modeled as integers (`Int`); the application only ever
  produces and consumes integral scores, and no claim involves fractional
  numerals.  The model's JSON grammar therefore rejects fraction/exponent
  syntax.
* Strings are Lean strings (sequences of unicode scalar values); the model's
  JSON text rejects escaped surrogate halves, which the serializer never
  emits.
* JavaScript arrays are modeled as carrying only their indexed elements
  (no extra named properties), which is exact for every JSON-derived value
  in the program.
* Platform builtins `JSON.parse` / `JSON.stringify` are modeled by the
  executable `parseJSON` / `jsonStringify` below, including the compact
  output format, escape handling, duplicate-key last-wins object semantics
  and whitespace tolerance.

Several recursive definitions take an explicit fuel argument so that every
definition is structurally recursive and hence fully evaluable inside the
kernel; for each of them an equation lemma is proved showing that with the
chosen fuel the function satisfies exactly the recursion of the source code.
-/

/-- A JavaScript runtime value, as far as the embedded code can observe it. -/
inductive JSVal where
  | undef
  | null
  | bool (b : Bool)
  | num (n : Int)
  | str (s : String)
  | arr (elems : List JSVal)
  | obj (fields : List (String × JSVal))
deriving Repr

/-- JavaScript falsiness (`!v`): undefined, null, false, 0 and "" are falsy. -/
def isFalsy : JSVal → Bool
  | JSVal.undef => true
  | .null => true
  | .bool b => !b
  | .num n => n == 0
  | .str s => s == ""
  | .arr _ => false
  | .obj _ => false

/-- JavaScript truthiness (`!!v`). -/
def isTruthy (v : JSVal) : Bool := !(isFalsy v)

/-- JavaScript loose equality with null (`v == null`): true for null and undefined. -/
def isNullish : JSVal → Bool
  | JSVal.undef => true
  | .null => true
  | _ => false

/-- The nullish-coalescing operator `a ?? b`. -/
def jsCoalesce (a b : JSVal) : JSVal := if isNullish a then b else a

/-- Is the value of JavaScript `typeof` "object" and not null (a plain object
or an array)? -/
def isObjLike : JSVal → Bool
  | .arr _ => true
  | .obj _ => true
  | _ => false

/-- Property lookup in an association list of object fields; a missing key
reads as undefined, as in JavaScript. -/
def getField : List (String × JSVal) → String → JSVal
  | [], _ => JSVal.undef
  | (k, v) :: rest, key => if k == key then v else getField rest key

/-- Property read `v.key` / `v?.key`.  On non-objects this yields undefined;
JSON-derived arrays carry no named properties, so reading a name off an array
also yields undefined. -/
def getProp : JSVal → String → JSVal
  | .obj fs, key => getField fs key
  | _, _ => JSVal.undef

/-- Property assignment inside an association list: an existing key keeps its
position and receives the new value, a new key is appended — exactly the
JavaScript object assignment/update order. -/
def setField : List (String × JSVal) → String → JSVal → List (String × JSVal)
  | [], key, v => [(key, v)]
  | (k, w) :: rest, key, v =>
    if k == key then (k, v) :: rest else (k, w) :: setField rest key v

/-- Property write `o.key = v`.  Only plain objects are written to in the
embedded code (every write site is guarded so that it never fires on an
array), so non-objects are returned unchanged. -/
def setProp : JSVal → String → JSVal → JSVal
  | .obj fs, key, v => .obj (setField fs key v)
  | other, _, _ => other

/-- Does the object have the key as an own property (`key in o`)? -/
def hasField : List (String × JSVal) → String → Bool
  | [], _ => false
  | (k, _) :: rest, key => k == key || hasField rest key

/-- Key presence on a value. -/
def hasProp : JSVal → String → Bool
  | .obj fs, key => hasField fs key
  | _, _ => false

/-- Fueled decimal printing of a natural number (most significant digit
first).  The fuel `n + 1` always suffices; `digitChar` is defined below. -/
def natDigitsGo (digit : Nat → Char) : Nat → Nat → List Char
  | 0, _ => []
  | fuel+1, n =>
    if n < 10 then [digit n]
    else natDigitsGo digit fuel (n / 10) ++ [digit (n % 10)]

/-- The decimal digit character for a value below ten. -/
def digitChar : Nat → Char
  | 0 => '0' | 1 => '1' | 2 => '2' | 3 => '3' | 4 => '4'
  | 5 => '5' | 6 => '6' | 7 => '7' | 8 => '8' | 9 => '9'
  | _ => '*'

/-- Decimal digits of a natural number. -/
def natDigits (n : Nat) : List Char := natDigitsGo digitChar (n + 1) n

/-- The own enumerable key/value pairs produced by a spread `...v` in an
object literal: objects contribute their fields, arrays and strings their
indexed elements, primitives and null/undefined contribute nothing. -/
def spreadFields : JSVal → List (String × JSVal)
  | .obj fs => fs
  | .arr xs => (xs.enum.map fun p => (String.mk (natDigits p.1), p.2))
  | .str s => (s.data.enum.map fun p => (String.mk (natDigits p.1), JSVal.str (String.mk [p.2])))
  | _ => []

/-- Spreading a value into an already-built object literal: each spread pair
is assigned in order (existing keys keep their position, new keys append). -/
def spreadInto (base : JSVal) (src : JSVal) : JSVal :=
  (spreadFields src).foldl (fun acc kv => setProp acc kv.1 kv.2) base

/-! ## Decimal numerals -/

/-- The character sequence JavaScript prints for an integer. -/
def intChars : Int → List Char
  | .ofNat m => natDigits m
  | .negSucc m => '-' :: natDigits (m + 1)

/-! ## JSON serialization (the model of `JSON.stringify`) -/

/-- The hexadecimal digit character for a value below sixteen (lower case,
as produced by JavaScript's escaping). -/
def hexDigitChar : Nat → Char
  | 0 => '0' | 1 => '1' | 2 => '2' | 3 => '3' | 4 => '4' | 5 => '5'
  | 6 => '6' | 7 => '7' | 8 => '8' | 9 => '9' | 10 => 'a' | 11 => 'b'
  | 12 => 'c' | 13 => 'd' | 14 => 'e' | 15 => 'f'
  | _ => '*'

/-- JSON escaping of one string character, following `JSON.stringify`:
quote and backslash get a backslash escape, the named control characters get
their short escapes, other control characters get a `\u00XX` escape, and
everything else is emitted literally. -/
def escChar (c : Char) : List Char :=
  if c = '"' then ['\\', '"']
  else if c = '\\' then ['\\', '\\']
  else if c = '\n' then ['\\', 'n']
  else if c = '\r' then ['\\', 'r']
  else if c = '\t' then ['\\', 't']
  else if c = '\x08' then ['\\', 'b']
  else if c = '\x0c' then ['\\', 'f']
  else if c.toNat < 0x20 then
    ['\\', 'u', '0', '0', hexDigitChar (c.toNat / 16), hexDigitChar (c.toNat % 16)]
  else [c]

/-- JSON escaping of a character sequence. -/
def escList : List Char → List Char
  | [] => []
  | c :: cs => escChar c ++ escList cs

/-- A JSON string literal for the given string (quotes included). -/
def quoteChars (s : String) : List Char := '"' :: escList s.data ++ ['"']

mutual
/-- The character sequence `JSON.stringify` produces for a value.  Per
JavaScript semantics, an `undefined` array element serializes as `null` and
an object field whose value is `undefined` is dropped; output is compact (no
added whitespace).  A top-level `undefined` is rendered as `null` here;
`JSON.stringify` would return no string at all in that case, and no embedded
call site ever serializes a top-level `undefined`. -/
def stringifyChars : JSVal → List Char
  | JSVal.undef => "null".data
  | .null => "null".data
  | .bool true => "true".data
  | .bool false => "false".data
  | .num n => intChars n
  | .str s => quoteChars s
  | .arr xs => '[' :: (strElemsC xs).drop 1 ++ [']']
  | .obj fs => '\x7b' :: (strMemsC fs).drop 1 ++ ['\x7d']

/-- Array elements, each rendered with a leading comma (the first comma is
dropped by the caller); `undefined` elements render as `null`. -/
def strElemsC : List JSVal → List Char
  | [] => []
  | JSVal.undef :: xs => ',' :: ("null".data ++ strElemsC xs)
  | x :: xs => ',' :: (stringifyChars x ++ strElemsC xs)

/-- Object members, each rendered with a leading comma (the first comma is
dropped by the caller); members with `undefined` values are dropped. -/
def strMemsC : List (String × JSVal) → List Char
  | [] => []
  | (_, JSVal.undef) :: fs => strMemsC fs
  | (k, v) :: fs => ',' :: (quoteChars k ++ ':' :: stringifyChars v ++ strMemsC fs)
end

/-- The model of `JSON.stringify` (compact form, as the default in the code). -/
def jsonStringify (v : JSVal) : String := String.mk (stringifyChars v)

/-! ## JSON parsing (the model of `JSON.parse`) -/

/-- JSON insignificant whitespace. -/
def isWS (c : Char) : Bool := c = ' ' || c = '\n' || c = '\t' || c = '\r'

/-- Skip insignificant whitespace. -/
def skipWS (cs : List Char) : List Char := cs.dropWhile isWS

/-- Value of one hexadecimal digit character. -/
def hexVal : Char → Option Nat :=
  fun c =>
    if '0' ≤ c && c ≤ '9' then some (c.toNat - 48)
    else if 'a' ≤ c && c ≤ 'f' then some (c.toNat - 87)
    else if 'A' ≤ c && c ≤ 'F' then some (c.toNat - 55)
    else none

/-- The value of four hexadecimal digit characters, when all are valid. -/
def hex4 (h1 h2 h3 h4 : Char) : Option Nat :=
  match hexVal h1, hexVal h2, hexVal h3, hexVal h4 with
  | some a, some b, some c2, some d => some (((a * 16 + b) * 16 + c2) * 16 + d)
  | _, _, _, _ => none

mutual
/-- Parse the body of a JSON string literal (after the opening quote),
returning the decoded characters and the input remaining after the closing
quote.  Raw control characters are rejected, escapes are decoded; a `\\u`
escape must denote a unicode scalar value (see the model notes above). -/
def parseStringBody : List Char → Option (List Char × List Char)
  | [] => none
  | c :: rest =>
    if c = '"' then some ([], rest)
    else if c = '\\' then psbEsc rest
    else if c.toNat < 0x20 then none
    else (parseStringBody rest).map fun p => (c :: p.1, p.2)

/-- Decode the escape sequence after a backslash and continue with the rest
of the string body. -/
def psbEsc : List Char → Option (List Char × List Char)
  | 'n' :: r => (parseStringBody r).map fun p => ('\n' :: p.1, p.2)
  | 'r' :: r => (parseStringBody r).map fun p => ('\r' :: p.1, p.2)
  | 't' :: r => (parseStringBody r).map fun p => ('\t' :: p.1, p.2)
  | 'b' :: r => (parseStringBody r).map fun p => ('\x08' :: p.1, p.2)
  | 'f' :: r => (parseStringBody r).map fun p => ('\x0c' :: p.1, p.2)
  | '/' :: r => (parseStringBody r).map fun p => ('/' :: p.1, p.2)
  | '"' :: r => (parseStringBody r).map fun p => ('"' :: p.1, p.2)
  | '\\' :: r => (parseStringBody r).map fun p => ('\\' :: p.1, p.2)
  | 'u' :: h1 :: h2 :: h3 :: h4 :: r =>
    (hex4 h1 h2 h3 h4).bind fun n =>
      if n < 0xd800 || (0xe000 <= n && n < 0x110000) then
        (parseStringBody r).map fun p => (Char.ofNat n :: p.1, p.2)
      else none
  | _ => none
end

/-- Is the character a decimal digit? -/
def isDigitCh (c : Char) : Bool := '0' ≤ c && c ≤ '9'

/-- Split the longest digit run off the front of the input. -/
def spanDigits : List Char → List Char × List Char
  | [] => ([], [])
  | c :: rest =>
    if isDigitCh c then
      let p := spanDigits rest
      (c :: p.1, p.2)
    else ([], c :: rest)

/-- The natural number denoted by a digit run. -/
def decNat (ds : List Char) : Nat := ds.foldl (fun a c => a * 10 + (c.toNat - 48)) 0

/-- Parse an unsigned JSON number token: a digit run without a leading zero
(unless it is exactly `0`), rejected when a fraction or exponent marker
follows (see the model notes: numbers are integers in this model). -/
def parseNatToken (cs : List Char) : Option (Nat × List Char) :=
  let p := spanDigits cs
  if p.1 = [] then none
  else if p.1.length > 1 && p.1.headD '0' = '0' then none
  else if p.2.headD ' ' = '.' || p.2.headD ' ' = 'e' || p.2.headD ' ' = 'E' then none
  else some (decNat p.1, p.2)

/-- Parse a JSON number token: optional minus followed by an unsigned
integer numeral. -/
def parseIntToken (cs : List Char) : Option (Int × List Char) :=
  if cs.headD ' ' = '-' then (parseNatToken cs.tail).map fun p => (-(p.1 : Int), p.2)
  else (parseNatToken cs).map fun p => ((p.1 : Int), p.2)

mutual
/-- Fueled recursive-descent JSON value grammar; fuel bounds the nesting of
values, one unit per value / element step / member step. -/
def parseValue : Nat → List Char → Option (JSVal × List Char)
  | 0, _ => none
  | fuel+1, cs =>
    match skipWS cs with
    | 'n' :: 'u' :: 'l' :: 'l' :: rest => some (.null, rest)
    | 't' :: 'r' :: 'u' :: 'e' :: rest => some (.bool true, rest)
    | 'f' :: 'a' :: 'l' :: 's' :: 'e' :: rest => some (.bool false, rest)
    | '"' :: rest =>
      match parseStringBody rest with
      | some (content, r) => some (.str (String.mk content), r)
      | none => none
    | '[' :: rest =>
      match skipWS rest with
      | ']' :: r => some (.arr [], r)
      | _ =>
        match parseElems fuel rest with
        | some (xs, r) => some (.arr xs, r)
        | none => none
    | '\x7b' :: rest =>
      match skipWS rest with
      | '\x7d' :: r => some (.obj [], r)
      | _ =>
        match parseMembers fuel rest with
        | some (fs, r) =>
          some (.obj (fs.foldl (fun acc kv => setField acc kv.1 kv.2) []), r)
        | none => none
    | other =>
      match parseIntToken other with
      | some (n, r) => some (.num n, r)
      | none => none

/-- Parse one or more comma-separated array elements and the closing
bracket. -/
def parseElems : Nat → List Char → Option (List JSVal × List Char)
  | 0, _ => none
  | fuel+1, cs =>
    match parseValue fuel cs with
    | some (v, r) =>
      match skipWS r with
      | ',' :: r2 =>
        match parseElems fuel r2 with
        | some (vs, r3) => some (v :: vs, r3)
        | none => none
      | ']' :: r2 => some ([v], r2)
      | _ => none
    | none => none

/-- Parse one or more comma-separated object members and the closing brace,
returning the raw member list in source order (duplicates preserved; the
caller folds them with assignment semantics, so a duplicate key keeps its
first position and last value, as `JSON.parse` does). -/
def parseMembers : Nat → List Char → Option (List (String × JSVal) × List Char)
  | 0, _ => none
  | fuel+1, cs =>
    match skipWS cs with
    | '"' :: rest =>
      match parseStringBody rest with
      | some (kcs, r1) =>
        match skipWS r1 with
        | ':' :: r2 =>
          match parseValue fuel r2 with
          | some (v, r3) =>
            match skipWS r3 with
            | ',' :: r4 =>
              match parseMembers fuel r4 with
              | some (fs, r5) => some ((String.mk kcs, v) :: fs, r5)
              | none => none
            | '\x7d' :: r4 => some ([(String.mk kcs, v)], r4)
            | _ => none
          | none => none
        | _ => none
      | none => none
    | _ => none
end

/-- The model of `JSON.parse`: parse one value, then require only whitespace
to remain; any other input makes the parse fail (a thrown `SyntaxError` in
JavaScript).  The fuel `length + 1` suffices for every parseable input
because every value, element and member consumes at least one character. -/
def parseJSON (s : String) : Option JSVal :=
  match parseValue (s.length + 1) s.data with
  | some (v, rest) => if skipWS rest = [] then some v else none
  | none => none

/-- Is the input empty or headed by one of the three characters that can
follow a serialized value inside a JSON document (`,`, `]`, the closing
brace)?  Such a continuation never extends a number token. -/
def okDelim : List Char → Bool
  | [] => true
  | c :: _ => c = ',' || c = ']' || c = '\x7d'

/-- The model of `String.prototype.trim`. -/
def jsTrim (s : String) : String :=
  String.mk (((s.data.dropWhile isWS).reverse.dropWhile isWS).reverse)

/-! ## Well-formed (JSON-serializable) values

`WfJ` holds for values that are exact models of what `JSON.parse` can produce
and `JSON.stringify` round-trips: no `undefined` anywhere, and object keys
distinct (JavaScript objects cannot carry duplicate keys). -/

mutual
/-- The value is JSON-serializable: no undefined occurs and every object has
distinct keys. -/
def WfJ : JSVal → Bool
  | JSVal.undef => false
  | .null => true
  | .bool _ => true
  | .num _ => true
  | .str _ => true
  | .arr xs => wfL xs
  | .obj fs => distinctKeys fs && wfF fs

/-- All elements serializable. -/
def wfL : List JSVal → Bool
  | [] => true
  | x :: xs => WfJ x && wfL xs

/-- All field values serializable. -/
def wfF : List (String × JSVal) → Bool
  | [] => true
  | kv :: fs => WfJ kv.2 && wfF fs

/-- The keys of the field list are pairwise distinct. -/
def distinctKeys : List (String × JSVal) → Bool
  | [] => true
  | (k, _) :: fs => !(hasField fs k) && distinctKeys fs
end

mutual
/-- Fuel needed by `parseValue` for a value: one unit per value plus one per
element/member step.  Bounded by the length of the serialized form. -/
def pvFuel : JSVal → Nat
  | .arr xs => 1 + pvFuelL xs
  | .obj fs => 1 + pvFuelF fs
  | _ => 1

/-- Fuel needed by `parseElems` for an element list. -/
def pvFuelL : List JSVal → Nat
  | [] => 0
  | x :: xs => 1 + pvFuel x + pvFuelL xs

/-- Fuel needed by `parseMembers` for a member list. -/
def pvFuelF : List (String × JSVal) → Nat
  | [] => 0
  | kv :: fs => 1 + pvFuel kv.2 + pvFuelF fs
end

/-! ## The repository's data model (src/types/resume.ts)

Every field of the feedback shape is optional, and feedback values flow
through the program as dynamic values; the record type below models
`ResumeData`, with the dynamic `Feedback | string` field kept as a `JSVal`. -/

/-- `ResumeData` of src/types/resume.ts: the persisted record shape.  The
`feedback` field is dynamic (`Feedback | string`), modeled as a `JSVal`. -/
structure ResumeData where
  id : String
  resumePath : String
  imagePath : String
  companyName : String
  jobTitle : String
  jobDescription : String
  feedback : JSVal

/-! ## Feedback normalization (the two viewer copies of `normalizeFeedback`) -/

/-- The effective object of the single-level feedback unwrap:
`input?.feedback && typeof input.feedback === "object" ? input.feedback : input`
(`null` is excluded by its falsiness, arrays qualify for the unwrap). -/
def effectiveOf (input : JSVal) : JSVal :=
  if isTruthy (getProp input "feedback") && isObjLike (getProp input "feedback") then
    getProp input "feedback"
  else input

/-- The first reconciliation statement of both copies of `normalizeFeedback`:
`if (!maybe.toneAndStyle && maybe.tone_and_style) maybe.toneAndStyle = maybe.tone_and_style;` -/
def reconcileTone (maybe : JSVal) : JSVal :=
  if isFalsy (getProp maybe "toneAndStyle") && isTruthy (getProp maybe "tone_and_style") then
    setProp maybe "toneAndStyle" (getProp maybe "tone_and_style")
  else maybe

/-- The second reconciliation statement of both copies of `normalizeFeedback`:
`if (maybe.overallScore == null && maybe.overall_score != null) maybe.overallScore = maybe.overall_score;` -/
def reconcileScore (m1 : JSVal) : JSVal :=
  if isNullish (getProp m1 "overallScore") && !(isNullish (getProp m1 "overall_score")) then
    setProp m1 "overallScore" (getProp m1 "overall_score")
  else m1

/-- Key-variant reconciliation, performed identically by both copies of
`normalizeFeedback` (the two statements above, in source order). -/
def reconcile (maybe : JSVal) : JSVal := reconcileScore (reconcileTone maybe)

/-- `String(v)` for the primitive values that can reach the final fallback
branch of the first viewer's `normalizeFeedback` (numbers and booleans; all
other shapes are consumed by the earlier branches, so their rendering is
irrelevant and left empty). -/
def jsToString : JSVal → String
  | .num n => String.mk (intChars n)
  | .bool true => "true"
  | .bool false => "false"
  | _ => ""

/-- Fuel that dominates the recursion depth of `normalizeFeedback`: the
functions recurse only from a string input into its parsed value, and a JSON
string literal strictly shrinks at each such step. -/
def normFuel : JSVal → Nat
  | .str s => s.length + 1
  | _ => 1

/-- Fueled body of the first viewer's `normalizeFeedback` (the resume route
that keeps unparseable strings).  Branch order and conditions follow the
source: falsy input yields the empty string; object input is unwrapped one
level and key-reconciled; string input is JSON-parsed and re-normalized,
returning the string verbatim when parsing throws; any other input is
coerced with `String(...)` and JSON-parsed, the coerced string being returned
when that throws. -/
def normalizeFeedbackAGo : Nat → JSVal → JSVal
  | 0, input => input
  | fuel+1, input =>
    if isFalsy input then .str ""
    else
      match input with
      | .obj _ | .arr _ => reconcile (effectiveOf input)
      | .str s =>
        match parseJSON s with
        | some parsed => normalizeFeedbackAGo fuel parsed
        | none => .str s
      | other =>
        match parseJSON (jsToString other) with
        | some parsed => parsed
        | none => .str (jsToString other)

/-- The first viewer's `normalizeFeedback` (returns `Feedback | string`). -/
def normalizeFeedbackA (input : JSVal) : JSVal :=
  normalizeFeedbackAGo (normFuel input) input

/-- Fueled body of the second viewer's `normalizeFeedback` (the resume route
that discards unparseable strings).  Falsy input yields null; string input
is JSON-parsed and re-normalized, yielding null when parsing throws;
non-object input yields null; object input is unwrapped one level and
key-reconciled. -/
def normalizeFeedbackBGo : Nat → JSVal → JSVal
  | 0, input => input
  | fuel+1, input =>
    if isFalsy input then .null
    else
      match input with
      | .str s =>
        match parseJSON s with
        | some parsed => normalizeFeedbackBGo fuel parsed
        | none => .null
      | .obj _ | .arr _ => reconcile (effectiveOf input)
      | _ => .null

/-- The second viewer's `normalizeFeedback` (returns `Feedback | null`). -/
def normalizeFeedbackB (input : JSVal) : JSVal :=
  normalizeFeedbackBGo (normFuel input) input

/-! ## The upload flow's response extractor -/

/-- `extractFeedbackText` of the upload route: falsy input yields the empty
string; a string is returned unchanged; `feedback.message.content` is
returned when it is a string, or its first element's `text` when it is an
array carrying one; any other object serializes wholesale with
`JSON.stringify`; remaining primitives yield the empty string. -/
def extractFeedbackText (feedback : JSVal) : String :=
  if isFalsy feedback then ""
  else
    match feedback with
    | .str s => s
    | .obj _ | .arr _ =>
      (match getProp (getProp feedback "message") "content" with
       | .str c => c
       | .arr xs =>
         (match getProp (xs.headD JSVal.undef) "text" with
          | .str t => t
          | _ => jsonStringify feedback)
       | _ => jsonStringify feedback)
    | _ => ""

/-! ## Provider fallback resolver (store module) -/

/-- `toAIResponseFromJSON` of the store module, with the call to
`crypto.randomUUID()` supplied as the `uuid` argument.  The object literal
is built field by field with nullish-coalescing defaults, then the parsed
value is spread over it (`...(parsed ?? \x7b\x7d)`), which overwrites the
defaults for every key the parsed value actually carries. -/
def toAIResponseFromJSON (uuid : String) (parsed : JSVal) : JSVal :=
  let base : JSVal := .obj
    [ ("id", .str uuid),
      ("overallScore",
        jsCoalesce (getProp parsed "overallScore")
          (jsCoalesce (getProp parsed "overall_score") (.num 70))),
      ("content",
        jsCoalesce (getProp parsed "content")
          (.obj [ ("score", jsCoalesce (getProp parsed "contentScore") (.num 70)),
                  ("tips", jsCoalesce (getProp parsed "contentTips") (.arr [])) ])),
      ("skills",
        jsCoalesce (getProp parsed "skills")
          (.obj [ ("score", .num 70),
                  ("tips", jsCoalesce (getProp parsed "skillsTips") (.arr [])),
                  ("missing", jsCoalesce (getProp parsed "skillsMissing") (.arr [])) ])),
      ("structure",
        jsCoalesce (getProp parsed "structure")
          (.obj [ ("score", .num 70),
                  ("tips", jsCoalesce (getProp parsed "structureTips") (.arr [])) ])),
      ("toneAndStyle",
        jsCoalesce (getProp parsed "toneAndStyle")
          (jsCoalesce (getProp parsed "tone_and_style")
            (.obj [ ("score", .num 70),
                    ("tips", jsCoalesce (getProp parsed "toneTips") (.arr [])) ]))),
      ("tips", jsCoalesce (getProp parsed "tips") (.arr [])) ]
  spreadInto base parsed

/-- The fixed object `ollamaFeedback` hands to `toAIResponseFromJSON` when
the secondary model's reply is not valid JSON (field order as in the
source literal). -/
def ollamaFallbackSeed : JSVal := .obj
  [ ("overallScore", .num 65),
    ("tips", .arr
      [ .obj [ ("type", .str "improve"),
               ("tip", .str "AI returned non-JSON output. Try a different model or simplify the input.") ] ]),
    ("content", .obj
      [ ("score", .num 65),
        ("tips", .arr [ .obj [ ("type", .str "improve"),
          ("tip", .str "Add more role-specific keywords and measurable achievements.") ] ]) ]),
    ("skills", .obj
      [ ("score", .num 60),
        ("tips", .arr [ .obj [ ("type", .str "improve"),
          ("tip", .str "List key tools/skills explicitly to improve ATS matching.") ] ]) ]),
    ("structure", .obj
      [ ("score", .num 70),
        ("tips", .arr [ .obj [ ("type", .str "good"),
          ("tip", .str "Structure looks mostly clear; ensure consistent headings and spacing.") ] ]) ]),
    ("toneAndStyle", .obj
      [ ("score", .num 65),
        ("tips", .arr [ .obj [ ("type", .str "improve"),
          ("tip", .str "Use stronger action verbs and quantify results.") ] ]) ]) ]

/-- Outcome of the one HTTP request `ollamaFeedback` performs: the fetch may
reject (network failure), return a non-2xx status (the code then throws
`Ollama request failed ...`), or return a 2xx reply whose parsed JSON body is
carried here. -/
inductive OllamaHTTP where
  | netFail
  | httpError (status : Nat) (body : String)
  | ok (body : JSVal)

/-- Processing of a 2xx secondary reply body: `data?.response ?? ""` reads
the reply text; a non-string `response` value would make `raw.trim()` throw
inside the `try`, which the `catch` turns into the same safe-default path as
a JSON parse failure; a parseable reply text is mapped through
`toAIResponseFromJSON`. -/
def ollamaProcessText (uuid : String) (raw : String) : JSVal :=
  match parseJSON (jsTrim raw) with
  | some parsed => toAIResponseFromJSON uuid parsed
  | none => toAIResponseFromJSON uuid ollamaFallbackSeed

/-- Processing of a 2xx reply body: read `data?.response ?? ""`; a string
goes through the trim/parse/map path, a non-string `response` value makes
`raw.trim()` throw inside the `try`, which the `catch` turns into the same
safe-default record as a parse failure. -/
def ollamaProcessBody (uuid : String) (body : JSVal) : JSVal :=
  match jsCoalesce (getProp body "response") (.str "") with
  | .str raw => ollamaProcessText uuid raw
  | _ => toAIResponseFromJSON uuid ollamaFallbackSeed

/-- `ollamaFeedback` of the store module, as a function of the HTTP outcome
of its single request (the prompt only steers the model and does not affect
the embedded control flow).  A thrown error is modeled as `Except.error`:
the rejected fetch and the explicit non-2xx `throw` are the only failing
paths, and every 2xx body produces a record via `ollamaProcessBody`. -/
def ollamaFeedback (uuid : String) (out : OllamaHTTP) : Except String JSVal :=
  match out with
  | .netFail => .error "fetch failed"
  | .httpError status txt =>
    .error ("Ollama request failed (" ++ String.mk (natDigits status) ++ "): " ++ txt)
  | .ok body => .ok (ollamaProcessBody uuid body)

/-- Environment of one `feedback` resolution: availability of the Puter
bridge, the outcome of the primary `puter.ai.chat` call, the outcome of the
`fs.read` of the resume blob, and the HTTP outcomes of up to two secondary
`ollamaFeedback` invocations (first the combined-prompt call, then the
message-only call used when the first one throws), plus the two
`crypto.randomUUID()` draws those invocations would make. -/
structure FeedbackEnv where
  puterAvailable : Bool
  chatResult : Except String JSVal
  readBlobText : Except String String
  ollamaFirst : OllamaHTTP
  ollamaSecond : OllamaHTTP
  uuidA : String
  uuidB : String

/-- The store's `feedback` function.  When the bridge is unavailable, the
store's `readFile` helper returns undefined without throwing (it only sets
the store error), so the first secondary invocation always happens and the
second one only if the first throws.  When the bridge is available, a
successful primary chat reply is returned as is; on a thrown primary error
the resolver reads the blob (a throw here skips straight to the message-only
call) and invokes the secondary provider, falling back to the message-only
call if that invocation throws — and if the message-only call also throws,
the error propagates to the caller. -/
def feedbackFn (env : FeedbackEnv) : Except String JSVal :=
  if !env.puterAvailable then
    match ollamaFeedback env.uuidA env.ollamaFirst with
    | .ok v => .ok v
    | .error _ => ollamaFeedback env.uuidB env.ollamaSecond
  else
    match env.chatResult with
    | .ok v => .ok v
    | .error _ =>
      match env.readBlobText with
      | .error _ => ollamaFeedback env.uuidB env.ollamaSecond
      | .ok _ =>
        match ollamaFeedback env.uuidA env.ollamaFirst with
        | .ok v => .ok v
        | .error _ => ollamaFeedback env.uuidB env.ollamaSecond

/-! ## Upload flow (`handleAnalyze` of the upload route) -/

/-- `pickUploaded` of the upload route: an array yields its first element
(undefined when empty), an object with a truthy `file` field yields that
field, anything else passes through. -/
def pickUploaded : JSVal → JSVal
  | .arr xs => xs.headD JSVal.undef
  | u => if isTruthy (getProp u "file") then getProp u "file" else u

/-- Externally observable step of one `handleAnalyze` run: a key-value store
write (the written string is the JSON serialization of the recorded value)
or the invocation of the AI resolver. -/
inductive AnalyzeEvent where
  | kvSet (key : String) (record : JSVal)
  | aiInvoke

/-- Environment of one `handleAnalyze` run: results of the two `fs.upload`
calls, of `convertPdfToImage`, the generated UUID and the outcome of the
`ai.feedback` call (an `Except.error` models a rejected promise, caught by
the surrounding try/catch). -/
structure AnalyzeEnv where
  uploadPdfResult : JSVal
  imageResult : JSVal
  uploadImgResult : JSVal
  uuid : String
  aiResult : Except String JSVal

/-- The user-supplied submission fields. -/
structure AnalyzeParams where
  companyName : String
  jobTitle : String
  jobDescription : String

/-- Did the status text of the run report a failure (all failure messages in
`handleAnalyze` start with `Error:`)? -/
def isErrorStatus (s : String) : Bool :=
  match s.data with
  | 'E' :: 'r' :: 'r' :: 'o' :: 'r' :: ':' :: _ => true
  | _ => false

/-- The `data` record `handleAnalyze` assembles before the placeholder
write: ids and paths from the environment, the user fields verbatim, and
`feedback` initialized to the empty string. -/
def analyzeData (env : AnalyzeEnv) (p : AnalyzeParams) : JSVal := .obj
  [ ("id", .str env.uuid),
    ("resumePath", getProp (pickUploaded env.uploadPdfResult) "path"),
    ("imagePath", getProp (pickUploaded env.uploadImgResult) "path"),
    ("companyName", .str p.companyName),
    ("jobTitle", .str p.jobTitle),
    ("jobDescription", .str p.jobDescription),
    ("feedback", .str "") ]

/-- The tail of `handleAnalyze` after the AI resolver has been invoked: the
resulting status text and the extra store writes (beyond the placeholder).
A resolver rejection is caught by the outer handler; a falsy or
empty-extracting reply reports an error with no further write; a reply
whose extracted text parses as JSON — or, failing that, is itself
object-shaped — is assigned into `feedback` and written again under the
same key; otherwise `Error: AI response was not valid JSON.` is reported
and nothing further is written. -/
def analyzeFinish (env : AnalyzeEnv) (data : JSVal) (key : String) :
    String × List AnalyzeEvent :=
  match env.aiResult with
  | .error _ => ("Error: Something went wrong during analysis.", [])
  | .ok fb =>
    if isFalsy fb then ("Error: Failed to get feedback from AI.", [])
    else
      let feedbackText := extractFeedbackText fb
      if feedbackText == "" then ("Error: AI returned empty feedback.", [])
      else
        match parseJSON feedbackText with
        | some parsed =>
          ("Analysis complete. Redirecting...",
            [AnalyzeEvent.kvSet key (setProp data "feedback" parsed)])
        | none =>
          if isObjLike fb then
            ("Analysis complete. Redirecting...",
              [AnalyzeEvent.kvSet key (setProp data "feedback" fb)])
          else ("Error: AI response was not valid JSON.", [])

/-- `handleAnalyze` of the upload route, returning the final status text and
the ordered external events of the run.  The flow mirrors the source: check
the uploaded PDF's path, check the conversion result's file, check the
uploaded image's path, persist the placeholder record (feedback set to the
empty string) under `resume:<uuid>`, invoke the AI resolver, and finish per
`analyzeFinish`. -/
def handleAnalyze (env : AnalyzeEnv) (p : AnalyzeParams) : String × List AnalyzeEvent :=
  let uploadedPdf := pickUploaded env.uploadPdfResult
  if !(isTruthy (getProp uploadedPdf "path")) then ("Error: Failed to upload PDF.", [])
  else
    let imageFile := jsCoalesce (getProp env.imageResult "file") .null
    if isFalsy imageFile then
      (match getProp env.imageResult "error" with
       | .str e => if e == "" then ("Error: Failed to convert PDF to image.", []) else (e, [])
       | e => if isTruthy e then (jsToString e, []) else ("Error: Failed to convert PDF to image.", []))
    else
      let uploadedImg := pickUploaded env.uploadImgResult
      if !(isTruthy (getProp uploadedImg "path")) then ("Error: Failed to upload image.", [])
      else
        let data := analyzeData env p
        let key := "resume:" ++ env.uuid
        let fin := analyzeFinish env data key
        (fin.1, AnalyzeEvent.kvSet key data :: AnalyzeEvent.aiInvoke :: fin.2)

/-! ## Basic lemmas about property access -/

theorem getField_of_not_hasField {fs : List (String × JSVal)} {k : String}
    (h : hasField fs k = false) : getField fs k = JSVal.undef := by
  induction fs with
  | nil => rfl
  | cons kv rest ih =>
    obtain ⟨k1, v1⟩ := kv
    simp only [hasField, Bool.or_eq_false_iff] at h
    simp only [getField, h.1, if_false, Bool.false_eq_true]
    exact ih h.2

theorem getField_setField_self (fs : List (String × JSVal)) (k : String) (v : JSVal) :
    getField (setField fs k v) k = v := by
  induction fs with
  | nil => simp [setField, getField]
  | cons kv rest ih =>
    obtain ⟨k1, v1⟩ := kv
    by_cases h : k1 = k
    · simp [setField, getField, h]
    · simp only [setField, beq_iff_eq, h, if_neg, not_false_iff]
      simpa [getField, h] using ih

theorem getField_setField_ne (fs : List (String × JSVal)) (k k2 : String) (v : JSVal)
    (h : k ≠ k2) : getField (setField fs k v) k2 = getField fs k2 := by
  induction fs with
  | nil => simp [setField, getField, fun hh => h (by simpa using hh)]
  | cons kv rest ih =>
    obtain ⟨k1, v1⟩ := kv
    by_cases h1 : k1 = k
    · subst h1
      simp [setField, getField, h]
    · simp only [setField, beq_iff_eq, h1, if_neg, not_false_iff]
      by_cases h2 : k1 = k2
      · simp [getField, h2]
      · simp [getField, h2, ih]

theorem hasField_setField_self (fs : List (String × JSVal)) (k : String) (v : JSVal) :
    hasField (setField fs k v) k = true := by
  induction fs with
  | nil => simp [setField, hasField]
  | cons kv rest ih =>
    obtain ⟨k1, v1⟩ := kv
    by_cases h : k1 = k
    · simp [setField, hasField, h]
    · simp [setField, hasField, h, ih]

theorem hasField_setField_mono (fs : List (String × JSVal)) (k k2 : String) (v : JSVal)
    (h : hasField fs k2 = true) : hasField (setField fs k v) k2 = true := by
  induction fs with
  | nil => simp [hasField] at h
  | cons kv rest ih =>
    obtain ⟨k1, v1⟩ := kv
    simp only [hasField, Bool.or_eq_true] at h
    by_cases h1 : k1 = k
    · rcases h with h | h
      · have h12 : k1 = k2 := by simpa using h
        have hk : k = k2 := by rw [← h1]; exact h12
        simp [setField, hasField, hk, h12]
      · simp [setField, hasField, h1, h]
    · rcases h with h | h
      · simp [setField, hasField, h1, h]
      · simp [setField, hasField, h1, ih h]

theorem getProp_setProp_self (fs : List (String × JSVal)) (k : String) (v : JSVal) :
    getProp (setProp (.obj fs) k v) k = v := by
  simp [setProp, getProp, getField_setField_self]

theorem getProp_setProp_ne (o : JSVal) (k k2 : String) (v : JSVal) (h : k ≠ k2) :
    getProp (setProp o k v) k2 = getProp o k2 := by
  cases o <;> simp [setProp, getProp, getField_setField_ne _ _ _ _ h]

theorem isObjLike_setProp (o : JSVal) (k : String) (v : JSVal) :
    isObjLike (setProp o k v) = isObjLike o := by
  cases o <;> simp [setProp, isObjLike]

theorem isFalsy_setProp (o : JSVal) (k : String) (v : JSVal) :
    isFalsy (setProp o k v) = isFalsy o := by
  cases o <;> simp [setProp, isFalsy]

theorem hasProp_setProp_mono (o : JSVal) (k k2 : String) (v : JSVal)
    (h : hasProp o k2 = true) : hasProp (setProp o k v) k2 = true := by
  cases o <;> simp_all [setProp, hasProp, hasField_setField_mono]

/-! ## Lemmas about object spreads -/

theorem getProp_foldl_setProp_not_has (fs : List (String × JSVal)) (base : JSVal) (k : String)
    (h : hasField fs k = false) :
    getProp (fs.foldl (fun acc kv => setProp acc kv.1 kv.2) base) k = getProp base k := by
  induction fs generalizing base with
  | nil => rfl
  | cons kv rest ih =>
    obtain ⟨k1, v1⟩ := kv
    simp only [hasField, Bool.or_eq_false_iff, beq_eq_false_iff_ne, ne_eq] at h
    simp only [List.foldl_cons]
    rw [ih _ h.2, getProp_setProp_ne _ _ _ _ h.1]

theorem isObjLike_foldl_setProp (fs : List (String × JSVal)) (base : JSVal) :
    isObjLike (fs.foldl (fun acc kv => setProp acc kv.1 kv.2) base) = isObjLike base := by
  induction fs generalizing base with
  | nil => rfl
  | cons kv rest ih => simp only [List.foldl_cons]; rw [ih, isObjLike_setProp]

theorem hasProp_foldl_setProp_mono (fs : List (String × JSVal)) (base : JSVal) (k : String)
    (h : hasProp base k = true) :
    hasProp (fs.foldl (fun acc kv => setProp acc kv.1 kv.2) base) k = true := by
  induction fs generalizing base with
  | nil => exact h
  | cons kv rest ih =>
    simp only [List.foldl_cons]
    exact ih _ (hasProp_setProp_mono _ _ _ _ h)

theorem isObjLike_spreadInto (base src : JSVal) :
    isObjLike (spreadInto base src) = isObjLike base := by
  simp [spreadInto, isObjLike_foldl_setProp]

theorem hasProp_spreadInto_mono (base src : JSVal) (k : String)
    (h : hasProp base k = true) : hasProp (spreadInto base src) k = true :=
  hasProp_foldl_setProp_mono _ _ _ h

/-! ## Lemmas about key reconciliation -/

theorem getProp_reconcileTone_ne (m : JSVal) (k : String) (h : k ≠ "toneAndStyle") :
    getProp (reconcileTone m) k = getProp m k := by
  unfold reconcileTone
  split
  · exact getProp_setProp_ne _ _ _ _ (Ne.symm h)
  · rfl

theorem getProp_reconcileScore_ne (m : JSVal) (k : String) (h : k ≠ "overallScore") :
    getProp (reconcileScore m) k = getProp m k := by
  unfold reconcileScore
  split
  · exact getProp_setProp_ne _ _ _ _ (Ne.symm h)
  · rfl

theorem getProp_reconcile_ne (m : JSVal) (k : String)
    (h1 : k ≠ "toneAndStyle") (h2 : k ≠ "overallScore") :
    getProp (reconcile m) k = getProp m k := by
  unfold reconcile
  rw [getProp_reconcileScore_ne _ _ h2, getProp_reconcileTone_ne _ _ h1]

theorem isObjLike_reconcileTone (m : JSVal) : isObjLike (reconcileTone m) = isObjLike m := by
  unfold reconcileTone
  split
  · exact isObjLike_setProp _ _ _
  · rfl

theorem isObjLike_reconcileScore (m : JSVal) : isObjLike (reconcileScore m) = isObjLike m := by
  unfold reconcileScore
  split
  · exact isObjLike_setProp _ _ _
  · rfl

theorem isObjLike_reconcile (m : JSVal) : isObjLike (reconcile m) = isObjLike m := by
  unfold reconcile
  rw [isObjLike_reconcileScore, isObjLike_reconcileTone]

theorem hasProp_reconcileTone_mono (m : JSVal) (k : String) (h : hasProp m k = true) :
    hasProp (reconcileTone m) k = true := by
  unfold reconcileTone
  split
  · exact hasProp_setProp_mono _ _ _ _ h
  · exact h

theorem hasProp_reconcileScore_mono (m : JSVal) (k : String) (h : hasProp m k = true) :
    hasProp (reconcileScore m) k = true := by
  unfold reconcileScore
  split
  · exact hasProp_setProp_mono _ _ _ _ h
  · exact h

theorem hasProp_reconcile_mono (m : JSVal) (k : String) (h : hasProp m k = true) :
    hasProp (reconcile m) k = true :=
  hasProp_reconcileScore_mono _ _ (hasProp_reconcileTone_mono _ _ h)

theorem reconcileTone_obj (fs : List (String × JSVal)) :
    ∃ gs, reconcileTone (.obj fs) = .obj gs := by
  unfold reconcileTone
  split
  · exact ⟨_, rfl⟩
  · exact ⟨_, rfl⟩

/-- Key reconciliation never fires twice: applying it again is the
identity on its own output. -/
theorem reconcile_reconcile (m : JSVal) : reconcile (reconcile m) = reconcile m := by
  cases m with
  | obj fs0 =>
    set m : JSVal := .obj fs0 with hm
    have htfix : reconcileTone (reconcile m) = reconcile m := by
      by_cases c1 : (isFalsy (getProp m "toneAndStyle") && isTruthy (getProp m "tone_and_style")) = true
      · have hT : reconcileTone m = setProp m "toneAndStyle" (getProp m "tone_and_style") := by
          unfold reconcileTone
          rw [if_pos c1]
        have h1 : getProp (reconcileTone m) "toneAndStyle" = getProp m "tone_and_style" := by
          rw [hT, hm]
          exact getProp_setProp_self _ _ _
        have h2 : getProp (reconcile m) "toneAndStyle" = getProp m "tone_and_style" := by
          unfold reconcile
          rw [getProp_reconcileScore_ne _ _ (by decide), h1]
        have h3 : isTruthy (getProp m "tone_and_style") = true := (Bool.and_eq_true _ _ |>.mp c1).2
        have h4 : isFalsy (getProp (reconcile m) "toneAndStyle") = false := by
          rw [h2]
          simpa [isTruthy] using h3
        unfold reconcileTone
        rw [if_neg (by simp [h4])]
      · have hfalse : (isFalsy (getProp m "toneAndStyle") && isTruthy (getProp m "tone_and_style")) = false :=
          Bool.not_eq_true _ |>.mp c1
        have hT : reconcileTone m = m := by
          unfold reconcileTone
          rw [if_neg (by simp [hfalse])]
        rcases Bool.and_eq_false_iff.mp hfalse with h | h
        · have h2 : isFalsy (getProp (reconcile m) "toneAndStyle") = false := by
            unfold reconcile
            rw [hT, getProp_reconcileScore_ne _ _ (by decide)]
            exact h
          unfold reconcileTone
          rw [if_neg (by simp [h2])]
        · have h2 : isTruthy (getProp (reconcile m) "tone_and_style") = false := by
            unfold reconcile
            rw [getProp_reconcileScore_ne _ _ (by decide), getProp_reconcileTone_ne _ _ (by decide)]
            exact h
          unfold reconcileTone
          rw [if_neg (by simp [h2])]
    have hsfix : reconcileScore (reconcile m) = reconcile m := by
      obtain ⟨gs, hgs⟩ := reconcileTone_obj fs0
      rw [← hm] at hgs
      by_cases c2 : (isNullish (getProp (reconcileTone m) "overallScore") &&
          !(isNullish (getProp (reconcileTone m) "overall_score"))) = true
      · have hS : reconcile m =
            setProp (reconcileTone m) "overallScore" (getProp (reconcileTone m) "overall_score") := by
          unfold reconcile reconcileScore
          rw [if_pos c2]
        have h1 : getProp (reconcile m) "overallScore" = getProp (reconcileTone m) "overall_score" := by
          rw [hS, hgs]
          exact getProp_setProp_self _ _ _
        have h2 : isNullish (getProp (reconcile m) "overallScore") = false := by
          rw [h1]
          have := (Bool.and_eq_true _ _ |>.mp c2).2
          simpa using this
        unfold reconcileScore
        rw [if_neg (by simp [h2])]
      · have hfalse := Bool.not_eq_true _ |>.mp c2
        have hS : reconcile m = reconcileTone m := by
          unfold reconcile reconcileScore
          rw [if_neg (by simp [hfalse])]
        unfold reconcileScore
        rw [hS, if_neg (by simp [hfalse])]
    calc reconcile (reconcile m) = reconcileScore (reconcileTone (reconcile m)) := rfl
      _ = reconcileScore (reconcile m) := by rw [htfix]
      _ = reconcile m := hsfix
  | undef => rfl
  | null => rfl
  | bool b => rfl
  | num n => rfl
  | str s => rfl
  | arr xs => rfl

/-- Single-level unwrap is the identity when the feedback field is not
object-shaped. -/
theorem effectiveOf_of_not_objlike (x : JSVal) (h : isObjLike (getProp x "feedback") = false) :
    effectiveOf x = x := by
  unfold effectiveOf
  rw [if_neg (by simp [h])]

/-! ## Shrinking of parsed string literals

A JSON string literal is strictly longer than the string it denotes; this
bounds the recursion of `normalizeFeedback`, which re-normalizes the parse
of a string input. -/

/-- One-step unfolding of `parseStringBody` on a cons cell. -/
theorem psb_cons (c : Char) (rest : List Char) :
    parseStringBody (c :: rest) =
      (if c = '"' then some ([], rest)
       else if c = '\\' then psbEsc rest
       else if c.toNat < 0x20 then none
       else (parseStringBody rest).map fun p => (c :: p.1, p.2)) := rfl

theorem psb_map_cons {r : List Char} {d : Char} {content rest : List Char}
    (h : (parseStringBody r).map (fun p => (d :: p.1, p.2)) = some (content, rest)) :
    ∃ p1 p2, parseStringBody r = some (p1, p2) ∧ content = d :: p1 ∧ rest = p2 := by
  cases hpr : parseStringBody r with
  | none => rw [hpr] at h; simp at h
  | some p =>
    rw [hpr] at h
    simp only [Option.map_some', Option.some.injEq, Prod.mk.injEq] at h
    exact ⟨p.1, p.2, rfl, h.1.symm, h.2.symm⟩

set_option maxHeartbeats 1000000 in
theorem psb_shrink : ∀ (n : Nat) (cs : List Char), cs.length ≤ n → ∀ content rest,
    parseStringBody cs = some (content, rest) →
    content.length + rest.length < cs.length := by
  intro n
  induction n with
  | zero =>
    intro cs hcs content rest h
    rw [List.length_eq_zero.mp (Nat.le_zero.mp hcs)] at h
    exact Option.noConfusion h
  | succ n ih =>
    intro cs hcs content rest h
    cases cs with
    | nil => exact Option.noConfusion h
    | cons c rest0 =>
      rw [psb_cons] at h
      by_cases hq : c = '"'
      · rw [if_pos hq] at h
        simp only [Option.some.injEq, Prod.mk.injEq] at h
        simp [show content = [] from h.1.symm, show rest = rest0 from h.2.symm]
      · rw [if_neg hq] at h
        by_cases hb : c = '\\'
        · rw [if_pos hb] at h
          simp only [List.length_cons] at hcs
          rw [psbEsc.eq_def] at h
          split at h
          case _ r | _ r | _ r | _ r | _ r | _ r | _ r | _ r =>
            obtain ⟨p1, p2, hp, hc, hr⟩ := psb_map_cons h
            have := ih r (by simp_all [List.length_cons]; omega) _ _ hp
            subst hc hr
            simp only [List.length_cons]
            omega
          case _ h1 h2 h3 h4 r =>
            cases hhex : hex4 h1 h2 h3 h4 with
            | none => rw [hhex] at h; exact Option.noConfusion h
            | some m =>
              rw [hhex] at h
              simp only [Option.some_bind] at h
              split at h
              · obtain ⟨p1, p2, hp, hc, hr⟩ := psb_map_cons h
                have := ih r (by simp_all [List.length_cons]; omega) _ _ hp
                subst hc hr
                simp only [List.length_cons]
                omega
              · exact Option.noConfusion h
          case _ => exact Option.noConfusion h
        · rw [if_neg hb] at h
          by_cases hctl : c.toNat < 0x20
          · rw [if_pos hctl] at h
            exact Option.noConfusion h
          · rw [if_neg hctl] at h
            obtain ⟨p1, p2, hp, hc, hr⟩ := psb_map_cons h
            simp only [List.length_cons] at hcs
            have := ih rest0 (by omega) _ _ hp
            subst hc hr
            simp only [List.length_cons]
            omega


theorem skipWS_length (cs : List Char) : (skipWS cs).length ≤ cs.length := by
  induction cs with
  | nil => simp [skipWS]
  | cons c rest ih =>
    unfold skipWS at *
    by_cases h : isWS c
    · rw [List.dropWhile_cons, if_pos (by simp [h])]
      exact Nat.le_succ_of_le ih
    · rw [List.dropWhile_cons, if_neg (by simp [h])]

set_option maxHeartbeats 1000000 in
theorem parseValue_str_inv (fuel : Nat) (cs : List Char) (s2 : String) (rest : List Char)
    (h : parseValue fuel cs = some (.str s2, rest)) :
    ∃ r1 content, skipWS cs = '"' :: r1 ∧ parseStringBody r1 = some (content, rest) ∧
      s2 = String.mk content := by
  rw [parseValue.eq_def] at h
  split at h
  · exact Option.noConfusion h
  · split at h
    · simp at h
    · simp at h
    · simp at h
    · rename_i heq
      split at h
      · rename_i content r hpsb
        simp only [Option.some.injEq, Prod.mk.injEq, JSVal.str.injEq] at h
        exact ⟨_, content, heq, by rw [hpsb, h.2], h.1.symm⟩
      · exact Option.noConfusion h
    · split at h
      · simp at h
      · split at h
        · simp at h
        · exact Option.noConfusion h
    · split at h
      · simp at h
      · split at h
        · simp at h
        · exact Option.noConfusion h
    · split at h
      · simp at h
      · exact Option.noConfusion h

theorem parseJSON_str_shrink (s : String) (s2 : String)
    (h : parseJSON s = some (.str s2)) : s2.length < s.length := by
  unfold parseJSON at h
  cases hpv : parseValue (s.length + 1) s.data with
  | none => rw [hpv] at h; exact Option.noConfusion h
  | some p =>
    obtain ⟨v, r⟩ := p
    rw [hpv] at h
    split at h
    · rename_i v2 r2 heq
      simp only [Option.some.injEq, Prod.mk.injEq] at heq
      obtain ⟨hv, hr⟩ := heq
      subst hv hr
      split at h
      case isFalse => exact Option.noConfusion h
      simp only [Option.some.injEq] at h
      subst h
      obtain ⟨r1, content, hws, hpsb, hs2⟩ := parseValue_str_inv _ _ _ _ hpv
      have h1 := psb_shrink r1.length r1 le_rfl _ _ hpsb
      have h2 : ('"' :: r1).length ≤ s.data.length := by
        rw [← hws]; exact skipWS_length _
      simp only [List.length_cons] at h2
      have h3 : s2.length = content.length := by rw [hs2]; rfl
      have h4 : s.length = s.data.length := rfl
      omega
    · exact Option.noConfusion h

/-! ## Equations of the two normalizers

The fueled bodies satisfy, at their chosen fuel, exactly the recursion of
the source functions; the string literal shrink lemma shows the fuel never
runs out. -/

theorem parseJSON_empty : parseJSON "" = none := rfl

theorem normAGo_fuel : ∀ (fuel : Nat) (v : JSVal), normFuel v ≤ fuel →
    normalizeFeedbackAGo fuel v = normalizeFeedbackA v := by
  intro fuel
  induction fuel using Nat.strong_induction_on with
  | _ fuel ih =>
    intro v hv
    match fuel, v with
    | 0, v => exact absurd hv (by cases v <;> simp [normFuel])
    | f+1, JSVal.undef => rfl
    | f+1, .null => rfl
    | f+1, .bool b => rfl
    | f+1, .num n => rfl
    | f+1, .arr xs => rfl
    | f+1, .obj fs => rfl
    | f+1, .str s =>
      by_cases hs : s = ""
      · subst hs; rfl
      · have hlen : s.length ≤ f := by
          simp only [normFuel] at hv; omega
        have hpos : 1 ≤ s.length := by
          rcases Nat.eq_zero_or_pos s.length with h0 | h1
          · exact absurd (String.ext (List.length_eq_zero.mp h0)) hs
          · exact h1
        have hfalsy : isFalsy (.str s) = false := by simp [isFalsy, hs]
        cases hp : parseJSON s with
        | none =>
          simp [normalizeFeedbackAGo, normalizeFeedbackA, normFuel, hfalsy, hp]
        | some p =>
          have hbound : normFuel p ≤ s.length := by
            cases p with
            | str s2 =>
              have := parseJSON_str_shrink s s2 hp
              simp only [normFuel]; omega
            | undef => simpa [normFuel] using hpos
            | null => simpa [normFuel] using hpos
            | bool b => simpa [normFuel] using hpos
            | num n => simpa [normFuel] using hpos
            | arr xs => simpa [normFuel] using hpos
            | obj fs => simpa [normFuel] using hpos
          have e1 : normalizeFeedbackAGo (f+1) (.str s) = normalizeFeedbackAGo f p := by
            simp [normalizeFeedbackAGo, hfalsy, hp]
          have e2 : normalizeFeedbackA (.str s) = normalizeFeedbackAGo s.length p := by
            have : normFuel (.str s) = s.length + 1 := rfl
            simp only [normalizeFeedbackA, this]
            simp [normalizeFeedbackAGo, hfalsy, hp]
          rw [e1, e2, ih f (by omega) p (le_trans hbound hlen),
            ih s.length (by omega) p hbound]

theorem normBGo_fuel : ∀ (fuel : Nat) (v : JSVal), normFuel v ≤ fuel →
    normalizeFeedbackBGo fuel v = normalizeFeedbackB v := by
  intro fuel
  induction fuel using Nat.strong_induction_on with
  | _ fuel ih =>
    intro v hv
    match fuel, v with
    | 0, v => exact absurd hv (by cases v <;> simp [normFuel])
    | f+1, JSVal.undef => rfl
    | f+1, .null => rfl
    | f+1, .bool b => rfl
    | f+1, .num n => rfl
    | f+1, .arr xs => rfl
    | f+1, .obj fs => rfl
    | f+1, .str s =>
      by_cases hs : s = ""
      · subst hs; rfl
      · have hlen : s.length ≤ f := by
          simp only [normFuel] at hv; omega
        have hpos : 1 ≤ s.length := by
          rcases Nat.eq_zero_or_pos s.length with h0 | h1
          · exact absurd (String.ext (List.length_eq_zero.mp h0)) hs
          · exact h1
        have hfalsy : isFalsy (.str s) = false := by simp [isFalsy, hs]
        cases hp : parseJSON s with
        | none =>
          simp [normalizeFeedbackBGo, normalizeFeedbackB, normFuel, hfalsy, hp]
        | some p =>
          have hbound : normFuel p ≤ s.length := by
            cases p with
            | str s2 =>
              have := parseJSON_str_shrink s s2 hp
              simp only [normFuel]; omega
            | undef => simpa [normFuel] using hpos
            | null => simpa [normFuel] using hpos
            | bool b => simpa [normFuel] using hpos
            | num n => simpa [normFuel] using hpos
            | arr xs => simpa [normFuel] using hpos
            | obj fs => simpa [normFuel] using hpos
          have e1 : normalizeFeedbackBGo (f+1) (.str s) = normalizeFeedbackBGo f p := by
            simp [normalizeFeedbackBGo, hfalsy, hp]
          have e2 : normalizeFeedbackB (.str s) = normalizeFeedbackBGo s.length p := by
            have : normFuel (.str s) = s.length + 1 := rfl
            simp only [normalizeFeedbackB, this]
            simp [normalizeFeedbackBGo, hfalsy, hp]
          rw [e1, e2, ih f (by omega) p (le_trans hbound hlen),
            ih s.length (by omega) p hbound]

/-- First viewer: falsy input yields the empty string. -/
theorem normalizeFeedbackA_falsy (v : JSVal) (h : isFalsy v = true) :
    normalizeFeedbackA v = .str "" := by
  cases v <;> simp_all [normalizeFeedbackA, normalizeFeedbackAGo, normFuel, isFalsy]

/-- Second viewer: falsy input yields null. -/
theorem normalizeFeedbackB_falsy (v : JSVal) (h : isFalsy v = true) :
    normalizeFeedbackB v = .null := by
  cases v <;> simp_all [normalizeFeedbackB, normalizeFeedbackBGo, normFuel, isFalsy]

/-- First viewer on object-shaped input: single-level unwrap followed by
key reconciliation. -/
theorem normalizeFeedbackA_obj (v : JSVal) (h : isObjLike v = true) :
    normalizeFeedbackA v = reconcile (effectiveOf v) := by
  cases v <;> simp_all [normalizeFeedbackA, normalizeFeedbackAGo, normFuel, isObjLike, isFalsy]

/-- Second viewer on object-shaped input: single-level unwrap followed by
key reconciliation. -/
theorem normalizeFeedbackB_obj (v : JSVal) (h : isObjLike v = true) :
    normalizeFeedbackB v = reconcile (effectiveOf v) := by
  cases v <;> simp_all [normalizeFeedbackB, normalizeFeedbackBGo, normFuel, isObjLike, isFalsy]

/-- First viewer on a string that does not parse: the string is returned
verbatim. -/
theorem normalizeFeedbackA_str_none (s : String) (hp : parseJSON s = none) :
    normalizeFeedbackA (.str s) = .str s := by
  by_cases hs : s = ""
  · subst hs; rfl
  · have hfalsy : isFalsy (.str s) = false := by simp [isFalsy, hs]
    have : normFuel (.str s) = s.length + 1 := rfl
    simp only [normalizeFeedbackA, this]
    simp [normalizeFeedbackAGo, hfalsy, hp]

/-- Second viewer on a string that does not parse: null. -/
theorem normalizeFeedbackB_str_none (s : String) (hp : parseJSON s = none) :
    normalizeFeedbackB (.str s) = .null := by
  by_cases hs : s = ""
  · subst hs; rfl
  · have hfalsy : isFalsy (.str s) = false := by simp [isFalsy, hs]
    have : normFuel (.str s) = s.length + 1 := rfl
    simp only [normalizeFeedbackB, this]
    simp [normalizeFeedbackBGo, hfalsy, hp]

/-- First viewer on a string that parses: recurse into the parsed value. -/
theorem normalizeFeedbackA_str_some (s : String) (p : JSVal) (hp : parseJSON s = some p) :
    normalizeFeedbackA (.str s) = normalizeFeedbackA p := by
  have hs : s ≠ "" := by
    intro e; subst e
    rw [parseJSON_empty] at hp
    exact Option.noConfusion hp
  have hpos : 1 ≤ s.length := by
    rcases Nat.eq_zero_or_pos s.length with h0 | h1
    · exact absurd (String.ext (List.length_eq_zero.mp h0)) hs
    · exact h1
  have hfalsy : isFalsy (.str s) = false := by simp [isFalsy, hs]
  have e2 : normalizeFeedbackA (.str s) = normalizeFeedbackAGo s.length p := by
    have : normFuel (.str s) = s.length + 1 := rfl
    simp only [normalizeFeedbackA, this]
    simp [normalizeFeedbackAGo, hfalsy, hp]
  rw [e2, normAGo_fuel]
  cases p with
  | str s2 =>
    have := parseJSON_str_shrink s s2 hp
    simp only [normFuel]; omega
  | undef => simpa [normFuel] using hpos
  | null => simpa [normFuel] using hpos
  | bool b => simpa [normFuel] using hpos
  | num n => simpa [normFuel] using hpos
  | arr xs => simpa [normFuel] using hpos
  | obj fs => simpa [normFuel] using hpos

/-- Second viewer on a string that parses: recurse into the parsed value. -/
theorem normalizeFeedbackB_str_some (s : String) (p : JSVal) (hp : parseJSON s = some p) :
    normalizeFeedbackB (.str s) = normalizeFeedbackB p := by
  have hs : s ≠ "" := by
    intro e; subst e
    rw [parseJSON_empty] at hp
    exact Option.noConfusion hp
  have hpos : 1 ≤ s.length := by
    rcases Nat.eq_zero_or_pos s.length with h0 | h1
    · exact absurd (String.ext (List.length_eq_zero.mp h0)) hs
    · exact h1
  have hfalsy : isFalsy (.str s) = false := by simp [isFalsy, hs]
  have e2 : normalizeFeedbackB (.str s) = normalizeFeedbackBGo s.length p := by
    have : normFuel (.str s) = s.length + 1 := rfl
    simp only [normalizeFeedbackB, this]
    simp [normalizeFeedbackBGo, hfalsy, hp]
  rw [e2, normBGo_fuel]
  cases p with
  | str s2 =>
    have := parseJSON_str_shrink s s2 hp
    simp only [normFuel]; omega
  | undef => simpa [normFuel] using hpos
  | null => simpa [normFuel] using hpos
  | bool b => simpa [normFuel] using hpos
  | num n => simpa [normFuel] using hpos
  | arr xs => simpa [normFuel] using hpos
  | obj fs => simpa [normFuel] using hpos

/-! ## Shape of the mapped secondary-provider record -/

theorem isTruthy_of_objlike (v : JSVal) (h : isObjLike v = true) : isTruthy v = true := by
  cases v <;> simp_all [isObjLike, isTruthy, isFalsy]

/-- Whatever the parsed secondary reply is, the mapped record is a non-falsy
object that carries the canonical keys: the object literal introduces them
and the trailing spread can only overwrite values, never remove keys. -/
theorem toAIResponse_props (uuid : String) (parsed : JSVal) :
    isObjLike (toAIResponseFromJSON uuid parsed) = true ∧
    isTruthy (toAIResponseFromJSON uuid parsed) = true ∧
    hasProp (toAIResponseFromJSON uuid parsed) "overallScore" = true ∧
    hasProp (toAIResponseFromJSON uuid parsed) "content" = true ∧
    hasProp (toAIResponseFromJSON uuid parsed) "skills" = true ∧
    hasProp (toAIResponseFromJSON uuid parsed) "structure" = true ∧
    hasProp (toAIResponseFromJSON uuid parsed) "toneAndStyle" = true := by
  have hobj : isObjLike (toAIResponseFromJSON uuid parsed) = true := by
    unfold toAIResponseFromJSON
    rw [isObjLike_spreadInto]
    rfl
  refine ⟨hobj, isTruthy_of_objlike _ hobj, ?_, ?_, ?_, ?_, ?_⟩
  all_goals
    unfold toAIResponseFromJSON
    apply hasProp_spreadInto_mono
    rfl

/-! ## Claim C1 -/

/-- Claim C1, amended.  For every secondary-provider reply that arrives with
a 2xx status (whether its `response` field is valid JSON, invalid JSON,
missing, or not even a string), `ollamaFeedback` returns — without failing —
a non-falsy object carrying `overallScore` and all four category keys
(`content`, `skills`, `structure`, `toneAndStyle`), and the `feedback`
resolver's secondary branch passes that object through unchanged.  The
amendment drops the original claim's network-failure case: on a rejected
fetch or non-2xx status `ollamaFeedback` throws, and when both secondary
invocations inside `feedback` throw, the error escapes to the caller (see
the counterexample), so the secondary branch can fail observably. -/
theorem claim_C1_amended :
    (∀ uuid body, ∃ r, ollamaFeedback uuid (OllamaHTTP.ok body) = .ok r ∧
      isObjLike r = true ∧ isTruthy r = true ∧ hasProp r "overallScore" = true ∧
      hasProp r "content" = true ∧ hasProp r "skills" = true ∧
      hasProp r "structure" = true ∧ hasProp r "toneAndStyle" = true) ∧
    (∀ (env : FeedbackEnv) body, env.puterAvailable = false → env.ollamaFirst = .ok body →
      ∃ r, feedbackFn env = .ok r ∧ ollamaFeedback env.uuidA (.ok body) = .ok r ∧
        isObjLike r = true ∧ isTruthy r = true ∧ hasProp r "overallScore" = true ∧
        hasProp r "content" = true ∧ hasProp r "skills" = true ∧
        hasProp r "structure" = true ∧ hasProp r "toneAndStyle" = true) := by
  have P : ∀ uuid body, isObjLike (ollamaProcessBody uuid body) = true ∧
      isTruthy (ollamaProcessBody uuid body) = true ∧
      hasProp (ollamaProcessBody uuid body) "overallScore" = true ∧
      hasProp (ollamaProcessBody uuid body) "content" = true ∧
      hasProp (ollamaProcessBody uuid body) "skills" = true ∧
      hasProp (ollamaProcessBody uuid body) "structure" = true ∧
      hasProp (ollamaProcessBody uuid body) "toneAndStyle" = true := by
    intro uuid body
    unfold ollamaProcessBody
    cases hj : jsCoalesce (getProp body "response") (JSVal.str "") with
    | str raw =>
      show isObjLike (ollamaProcessText uuid raw) = true ∧
        isTruthy (ollamaProcessText uuid raw) = true ∧
        hasProp (ollamaProcessText uuid raw) "overallScore" = true ∧
        hasProp (ollamaProcessText uuid raw) "content" = true ∧
        hasProp (ollamaProcessText uuid raw) "skills" = true ∧
        hasProp (ollamaProcessText uuid raw) "structure" = true ∧
        hasProp (ollamaProcessText uuid raw) "toneAndStyle" = true
      unfold ollamaProcessText
      cases hp : parseJSON (jsTrim raw) with
      | some parsed => exact toAIResponse_props uuid parsed
      | none => exact toAIResponse_props uuid ollamaFallbackSeed
    | undef => exact toAIResponse_props uuid ollamaFallbackSeed
    | null => exact toAIResponse_props uuid ollamaFallbackSeed
    | bool b => exact toAIResponse_props uuid ollamaFallbackSeed
    | num n => exact toAIResponse_props uuid ollamaFallbackSeed
    | arr xs => exact toAIResponse_props uuid ollamaFallbackSeed
    | obj fs => exact toAIResponse_props uuid ollamaFallbackSeed
  have A : ∀ uuid body, ∃ r, ollamaFeedback uuid (OllamaHTTP.ok body) = .ok r ∧
      isObjLike r = true ∧ isTruthy r = true ∧ hasProp r "overallScore" = true ∧
      hasProp r "content" = true ∧ hasProp r "skills" = true ∧
      hasProp r "structure" = true ∧ hasProp r "toneAndStyle" = true := by
    intro uuid body
    obtain ⟨h1, h2, h3, h4, h5, h6, h7⟩ := P uuid body
    exact ⟨ollamaProcessBody uuid body, rfl, h1, h2, h3, h4, h5, h6, h7⟩
  refine ⟨A, ?_⟩
  intro env body hpav hfirst
  obtain ⟨r, hr, h1, h2, h3, h4, h5, h6, h7⟩ := A env.uuidA body
  refine ⟨r, ?_, hr, h1, h2, h3, h4, h5, h6, h7⟩
  unfold feedbackFn
  rw [hpav, hfirst, hr]
  rfl

/-- Claim C1, witness: the amended theorem applied to a concrete secondary
environment whose bridge is unavailable and whose first secondary request
returns a 2xx reply with an empty body object. -/
theorem claim_C1_witness :
    ∃ r, feedbackFn ⟨false, Except.error "e", Except.ok "", OllamaHTTP.ok (JSVal.obj []),
        OllamaHTTP.netFail, "a", "b"⟩ = .ok r ∧
      ollamaFeedback "a" (OllamaHTTP.ok (JSVal.obj [])) = .ok r ∧
      isObjLike r = true ∧ isTruthy r = true ∧ hasProp r "overallScore" = true ∧
      hasProp r "content" = true ∧ hasProp r "skills" = true ∧
      hasProp r "structure" = true ∧ hasProp r "toneAndStyle" = true :=
  claim_C1_amended.2 ⟨false, Except.error "e", Except.ok "", OllamaHTTP.ok (JSVal.obj []),
    OllamaHTTP.netFail, "a", "b"⟩ (JSVal.obj []) rfl rfl

/-- Claim C1, counterexample to the original claim: with the bridge
unavailable and the network down (both secondary fetches reject), the
resolver's secondary branch does not return any FeedbackRecord-shaped
object — the rejection propagates out of `feedback`, contradicting the
claim that the secondary path never fails observably and always yields a
record on network failure. -/
theorem claim_C1_counterexample :
    feedbackFn ⟨false, Except.error "primary down", Except.ok "", OllamaHTTP.netFail,
      OllamaHTTP.netFail, "a", "b"⟩ = .error "fetch failed" := rfl

/-! ## Claim C5 -/

/-- Claim C5, confirmed.  On the secondary path, a 2xx reply whose
`response` string does not parse as JSON yields exactly the synthesized
safe-default record: `overallScore` 65, exactly one top-level tip whose text
reads "AI returned non-JSON output. Try a different model or simplify the
input." (mentioning the non-JSON output), and one explanatory tip per
category with scores content 65, skills 60, structure 70, toneAndStyle 65 —
all within the 60–70 range. -/
theorem claim_C5_default_on_unparseable :
    ∀ uuid raw, parseJSON (jsTrim raw) = none →
    ollamaFeedback uuid (OllamaHTTP.ok (.obj [("response", .str raw)])) =
      .ok (toAIResponseFromJSON uuid ollamaFallbackSeed) ∧
    getProp (toAIResponseFromJSON uuid ollamaFallbackSeed) "overallScore" = .num 65 ∧
    getProp (toAIResponseFromJSON uuid ollamaFallbackSeed) "tips" =
      .arr [.obj [("type", .str "improve"),
        ("tip", .str "AI returned non-JSON output. Try a different model or simplify the input.")]] ∧
    getProp (toAIResponseFromJSON uuid ollamaFallbackSeed) "content" =
      .obj [("score", .num 65), ("tips", .arr [.obj [("type", .str "improve"),
        ("tip", .str "Add more role-specific keywords and measurable achievements.")]])] ∧
    getProp (toAIResponseFromJSON uuid ollamaFallbackSeed) "skills" =
      .obj [("score", .num 60), ("tips", .arr [.obj [("type", .str "improve"),
        ("tip", .str "List key tools/skills explicitly to improve ATS matching.")]])] ∧
    getProp (toAIResponseFromJSON uuid ollamaFallbackSeed) "structure" =
      .obj [("score", .num 70), ("tips", .arr [.obj [("type", .str "good"),
        ("tip", .str "Structure looks mostly clear; ensure consistent headings and spacing.")]])] ∧
    getProp (toAIResponseFromJSON uuid ollamaFallbackSeed) "toneAndStyle" =
      .obj [("score", .num 65), ("tips", .arr [.obj [("type", .str "improve"),
        ("tip", .str "Use stronger action verbs and quantify results.")]])] := by
  intro uuid raw hp
  refine ⟨?_, rfl, rfl, rfl, rfl, rfl, rfl⟩
  have e1 : ollamaFeedback uuid (OllamaHTTP.ok (.obj [("response", .str raw)])) =
      .ok (ollamaProcessText uuid raw) := rfl
  rw [e1]
  unfold ollamaProcessText
  rw [hp]

/-- Claim C5, witness: the theorem applied at the concrete reply
`response = "not json"`. -/
theorem claim_C5_witness :
    ollamaFeedback "u" (OllamaHTTP.ok (.obj [("response", .str "not json")])) =
      .ok (toAIResponseFromJSON "u" ollamaFallbackSeed) ∧
    getProp (toAIResponseFromJSON "u" ollamaFallbackSeed) "overallScore" = .num 65 :=
  ⟨(claim_C5_default_on_unparseable "u" "not json" rfl).1,
   (claim_C5_default_on_unparseable "u" "not json" rfl).2.1⟩

/-! ## Claim C6 -/

/-- Claim C6, confirmed.  The response extractor maps a plain string to
itself, a nested `message.content` string to that string, a
`message.content` array whose first element carries a `text` string to that
text, an object with no recognized text carrier to its JSON serialization,
and null — like every falsy input — to the empty string.  The embedding is
a total function, reflecting that the source never throws (all property
accesses are optional-chained and the fallback serializes the whole
object). -/
theorem claim_C6_extractor_scenarios :
    extractFeedbackText (.str "hello") = "hello" ∧
    extractFeedbackText (.obj [("message", .obj [("content", .str "hi")])]) = "hi" ∧
    extractFeedbackText (.obj [("message", .obj [("content",
      .arr [.obj [("text", .str "yo")]])])]) = "yo" ∧
    extractFeedbackText (.obj [("foo", .num 1)]) = "\x7b\"foo\":1\x7d" ∧
    extractFeedbackText .null = "" ∧
    (∀ v, isFalsy v = true → extractFeedbackText v = "") := by
  refine ⟨rfl, rfl, rfl, rfl, rfl, ?_⟩
  intro v h
  unfold extractFeedbackText
  rw [if_pos h]

/-- Claim C6, witness: the falsy clause of the theorem applied at
undefined. -/
theorem claim_C6_witness : extractFeedbackText JSVal.undef = "" :=
  claim_C6_extractor_scenarios.2.2.2.2.2 JSVal.undef rfl

/-! ## Claim C9 -/

/-- Claim C9, confirmed.  On a string that is not valid JSON, the first
viewer's normalizeFeedback returns the string verbatim while the second
viewer's normalizeFeedback returns null; in both the parse error is caught
(the embedding encodes the catch as the `none` branch), so no exception
escapes. -/
theorem claim_C9_divergent_unparseable :
    ∀ s : String, parseJSON s = none →
      normalizeFeedbackA (.str s) = .str s ∧ normalizeFeedbackB (.str s) = .null :=
  fun s hp => ⟨normalizeFeedbackA_str_none s hp, normalizeFeedbackB_str_none s hp⟩

/-- Claim C9, witness: the theorem applied at the unparseable string
"not json". -/
theorem claim_C9_witness :
    normalizeFeedbackA (.str "not json") = .str "not json" ∧
    normalizeFeedbackB (.str "not json") = .null :=
  claim_C9_divergent_unparseable "not json" rfl

/-! ## Claim C3 -/

theorem isObjLike_effectiveOf (x : JSVal) (h : isObjLike x = true) :
    isObjLike (effectiveOf x) = true := by
  unfold effectiveOf
  split
  · rename_i hc
    exact (Bool.and_eq_true _ _ |>.mp hc).2
  · exact h

/-- Claim C3, amended.  Both copies of `normalizeFeedback` are idempotent on
every object-shaped input whose effective object (after the single-level
unwrap) does not itself carry an object-shaped `feedback` field.  The
amendment excludes exactly the doubly nested inputs
`\x7bfeedback: \x7bfeedback: ...\x7d\x7d` the original claim included: there the first
normalization strips one wrapper and the second strips another, so the
results differ (see the counterexample). -/
theorem claim_C3_amended :
    ∀ x : JSVal, isObjLike x = true →
      isObjLike (getProp (effectiveOf x) "feedback") = false →
      normalizeFeedbackA (normalizeFeedbackA x) = normalizeFeedbackA x ∧
      normalizeFeedbackB (normalizeFeedbackB x) = normalizeFeedbackB x := by
  intro x hx hfb
  have hyobj : isObjLike (reconcile (effectiveOf x)) = true := by
    rw [isObjLike_reconcile]
    exact isObjLike_effectiveOf x hx
  have hyfb : isObjLike (getProp (reconcile (effectiveOf x)) "feedback") = false := by
    rw [getProp_reconcile_ne _ _ (by decide) (by decide)]
    exact hfb
  have hyeff : effectiveOf (reconcile (effectiveOf x)) = reconcile (effectiveOf x) :=
    effectiveOf_of_not_objlike _ hyfb
  constructor
  · rw [normalizeFeedbackA_obj x hx, normalizeFeedbackA_obj _ hyobj, hyeff,
      reconcile_reconcile]
  · rw [normalizeFeedbackB_obj x hx, normalizeFeedbackB_obj _ hyobj, hyeff,
      reconcile_reconcile]

/-- Claim C3, witness: the amended theorem applied to a singly nested
object (one unwrap, no nested feedback below it). -/
theorem claim_C3_witness :
    normalizeFeedbackA (normalizeFeedbackA (.obj [("feedback",
        .obj [("tone_and_style", .num 1)])])) =
      normalizeFeedbackA (.obj [("feedback", .obj [("tone_and_style", .num 1)])]) ∧
    normalizeFeedbackB (normalizeFeedbackB (.obj [("feedback",
        .obj [("tone_and_style", .num 1)])])) =
      normalizeFeedbackB (.obj [("feedback", .obj [("tone_and_style", .num 1)])]) :=
  claim_C3_amended (.obj [("feedback", .obj [("tone_and_style", .num 1)])]) rfl rfl

/-- Claim C3, counterexample to the original claim: on the doubly nested
object `\x7bfeedback: \x7bfeedback: \x7b\x7d\x7d\x7d` normalization is not idempotent — the
first pass returns `\x7bfeedback: \x7b\x7d\x7d`, the second returns `\x7b\x7d`, for both
viewer copies. -/
theorem claim_C3_counterexample :
    normalizeFeedbackA (normalizeFeedbackA (.obj [("feedback",
        .obj [("feedback", .obj [])])])) ≠
      normalizeFeedbackA (.obj [("feedback", .obj [("feedback", .obj [])])]) ∧
    normalizeFeedbackB (normalizeFeedbackB (.obj [("feedback",
        .obj [("feedback", .obj [])])])) ≠
      normalizeFeedbackB (.obj [("feedback", .obj [("feedback", .obj [])])]) := by
  constructor
  · intro h
    rw [show normalizeFeedbackA (normalizeFeedbackA (.obj [("feedback",
        .obj [("feedback", .obj [])])])) = .obj [] from rfl,
      show normalizeFeedbackA (.obj [("feedback", .obj [("feedback", .obj [])])]) =
        .obj [("feedback", .obj [])] from rfl] at h
    simp at h
  · intro h
    rw [show normalizeFeedbackB (normalizeFeedbackB (.obj [("feedback",
        .obj [("feedback", .obj [])])])) = .obj [] from rfl,
      show normalizeFeedbackB (.obj [("feedback", .obj [("feedback", .obj [])])]) =
        .obj [("feedback", .obj [])] from rfl] at h
    simp at h

/-! ## Claim C7 -/

theorem obj_of_truthy_prop (x : JSVal) (k : String) (h : isTruthy (getProp x k) = true) :
    ∃ fs, x = .obj fs := by
  cases x <;> first
  | exact ⟨_, rfl⟩
  | simp_all [getProp, isTruthy, isFalsy]

theorem hasProp_of_truthy (x : JSVal) (k : String) (h : isTruthy (getProp x k) = true) :
    hasProp x k = true := by
  obtain ⟨fs, rfl⟩ := obj_of_truthy_prop x k h
  by_cases hf : hasField fs k = true
  · exact hf
  · rw [show getProp (JSVal.obj fs) k = getField fs k from rfl,
      getField_of_not_hasField (Bool.not_eq_true _ |>.mp hf)] at h
    simp [isTruthy, isFalsy] at h

theorem hasProp_of_not_nullish (x : JSVal) (k : String)
    (hobj : isObjLike x = true) (h : isNullish (getProp x k) = false) :
    hasProp x k = true := by
  cases x with
  | obj fs =>
    by_cases hf : hasField fs k = true
    · exact hf
    · rw [show getProp (JSVal.obj fs) k = getField fs k from rfl,
        getField_of_not_hasField (Bool.not_eq_true _ |>.mp hf)] at h
      simp [isNullish] at h
  | arr xs => simp [getProp, isNullish] at h
  | undef => simp [isObjLike] at hobj
  | null => simp [isObjLike] at hobj
  | bool b => simp [isObjLike] at hobj
  | num n => simp [isObjLike] at hobj
  | str s => simp [isObjLike] at hobj

theorem reconcileScore_noop (m : JSVal) (h : isNullish (getProp m "overallScore") = false) :
    reconcileScore m = m := by
  unfold reconcileScore
  rw [if_neg]
  simp [h]

theorem reconcileTone_fires (m : JSVal)
    (h1 : isFalsy (getProp m "toneAndStyle") = true)
    (h2 : isTruthy (getProp m "tone_and_style") = true) :
    reconcileTone m = setProp m "toneAndStyle" (getProp m "tone_and_style") := by
  unfold reconcileTone
  rw [if_pos (by simp [h1, h2])]

/-- Claim C7, amended.  For every object-shaped input whose `feedback` field
is not itself object-shaped (so the single-level unwrap leaves it in place —
the amendment the counterexample forces): if `tone_and_style` is truthy and
`toneAndStyle` falsy, both normalizers copy `tone_and_style` into
`toneAndStyle`, keep its value, and keep the original `tone_and_style` key
present; and if neither `overallScore` nor `overall_score` is nullish, both
normalizers keep the existing `overallScore` value (never overwriting it
with the snake_case variant) and keep the `overall_score` key present with
its value. -/
theorem claim_C7_amended :
    ∀ x : JSVal, isObjLike x = true → isObjLike (getProp x "feedback") = false →
      ((isTruthy (getProp x "tone_and_style") = true →
        isFalsy (getProp x "toneAndStyle") = true →
        getProp (normalizeFeedbackA x) "toneAndStyle" = getProp x "tone_and_style" ∧
        getProp (normalizeFeedbackB x) "toneAndStyle" = getProp x "tone_and_style" ∧
        getProp (normalizeFeedbackA x) "tone_and_style" = getProp x "tone_and_style" ∧
        getProp (normalizeFeedbackB x) "tone_and_style" = getProp x "tone_and_style" ∧
        hasProp (normalizeFeedbackA x) "tone_and_style" = true ∧
        hasProp (normalizeFeedbackB x) "tone_and_style" = true) ∧
       (isNullish (getProp x "overallScore") = false →
        isNullish (getProp x "overall_score") = false →
        getProp (normalizeFeedbackA x) "overallScore" = getProp x "overallScore" ∧
        getProp (normalizeFeedbackB x) "overallScore" = getProp x "overallScore" ∧
        getProp (normalizeFeedbackA x) "overall_score" = getProp x "overall_score" ∧
        getProp (normalizeFeedbackB x) "overall_score" = getProp x "overall_score" ∧
        hasProp (normalizeFeedbackA x) "overall_score" = true ∧
        hasProp (normalizeFeedbackB x) "overall_score" = true)) := by
  intro x hx hfb
  have heff : effectiveOf x = x := effectiveOf_of_not_objlike x hfb
  have hA : normalizeFeedbackA x = reconcile x := by
    rw [normalizeFeedbackA_obj x hx, heff]
  have hB : normalizeFeedbackB x = reconcile x := by
    rw [normalizeFeedbackB_obj x hx, heff]
  constructor
  · intro ht hf
    obtain ⟨fs, rfl⟩ := obj_of_truthy_prop x "tone_and_style" ht
    have hfire := reconcileTone_fires (JSVal.obj fs) hf ht
    have htone : getProp (reconcile (JSVal.obj fs)) "toneAndStyle" =
        getProp (JSVal.obj fs) "tone_and_style" := by
      unfold reconcile
      rw [getProp_reconcileScore_ne _ _ (by decide), hfire]
      exact getProp_setProp_self _ _ _
    have hts : getProp (reconcile (JSVal.obj fs)) "tone_and_style" =
        getProp (JSVal.obj fs) "tone_and_style" :=
      getProp_reconcile_ne _ _ (by decide) (by decide)
    have hhp : hasProp (reconcile (JSVal.obj fs)) "tone_and_style" = true :=
      hasProp_reconcile_mono _ _ (hasProp_of_truthy _ _ ht)
    exact ⟨by rw [hA, htone], by rw [hB, htone], by rw [hA, hts], by rw [hB, hts],
      by rw [hA]; exact hhp, by rw [hB]; exact hhp⟩
  · intro h1 h2
    have hover : getProp (reconcile x) "overallScore" = getProp x "overallScore" := by
      unfold reconcile
      have hm1 : isNullish (getProp (reconcileTone x) "overallScore") = false := by
        rw [getProp_reconcileTone_ne _ _ (by decide)]
        exact h1
      rw [reconcileScore_noop _ hm1, getProp_reconcileTone_ne _ _ (by decide)]
    have hos : getProp (reconcile x) "overall_score" = getProp x "overall_score" :=
      getProp_reconcile_ne _ _ (by decide) (by decide)
    have hhp : hasProp (reconcile x) "overall_score" = true :=
      hasProp_reconcile_mono _ _ (hasProp_of_not_nullish _ _ hx h2)
    exact ⟨by rw [hA, hover], by rw [hB, hover], by rw [hA, hos], by rw [hB, hos],
      by rw [hA]; exact hhp, by rw [hB]; exact hhp⟩

/-- Claim C7, witness: the amended theorem applied to the flat object
`\x7btone_and_style: 5, overallScore: 1, overall_score: 2\x7d`. -/
theorem claim_C7_witness :
    getProp (normalizeFeedbackA (.obj [("tone_and_style", .num 5), ("overallScore", .num 1),
        ("overall_score", .num 2)])) "toneAndStyle" =
      getProp (.obj [("tone_and_style", .num 5), ("overallScore", .num 1),
        ("overall_score", .num 2)] : JSVal) "tone_and_style" ∧
    getProp (normalizeFeedbackA (.obj [("tone_and_style", .num 5), ("overallScore", .num 1),
        ("overall_score", .num 2)])) "overallScore" =
      getProp (.obj [("tone_and_style", .num 5), ("overallScore", .num 1),
        ("overall_score", .num 2)] : JSVal) "overallScore" :=
  ⟨((claim_C7_amended (.obj [("tone_and_style", .num 5), ("overallScore", .num 1),
      ("overall_score", .num 2)]) rfl rfl).1 rfl rfl).1,
   ((claim_C7_amended (.obj [("tone_and_style", .num 5), ("overallScore", .num 1),
      ("overall_score", .num 2)]) rfl rfl).2 rfl rfl).1⟩

/-- Claim C7, counterexample to the original claim: when the object also
carries an object-shaped `feedback` field, the unwrap discards the outer
keys before reconciliation, so `toneAndStyle` is not populated from
`tone_and_style` (and the kept-`overallScore` clause fails the same way):
the original claim quantified over every object with `tone_and_style` set
and `toneAndStyle` unset, which includes these. -/
theorem claim_C7_counterexample :
    getProp (normalizeFeedbackA (.obj [("tone_and_style", .num 5),
      ("feedback", .obj [])])) "toneAndStyle" = JSVal.undef ∧
    getProp (.obj [("tone_and_style", .num 5), ("feedback", .obj [])] : JSVal)
      "tone_and_style" = .num 5 ∧
    getProp (normalizeFeedbackA (.obj [("overallScore", .num 1), ("overall_score", .num 2),
      ("feedback", .obj [])])) "overallScore" = JSVal.undef ∧
    getProp (.obj [("overallScore", .num 1), ("overall_score", .num 2),
      ("feedback", .obj [])] : JSVal) "overallScore" = .num 1 := ⟨rfl, rfl, rfl, rfl⟩

/-! ## Claim C4 -/

/-- Claim C4, amended.  `toAIResponseFromJSON` substitutes a whole default
block — score 70 and an empty tips sequence (plus an empty `missing`
sequence for skills) — for any category that is absent from the parsed
reply (along with its auxiliary shorthand keys); a category that is present
passes through verbatim, even when its own `score` is missing (that is the
amendment: the original "default score for any category whose score is
absent" fails for present-but-scoreless categories, see the
counterexample).  A missing top-level tips sequence defaults to the empty
sequence, and the scenario-B reply `\x7b"overallScore":77\x7d` maps to a record
with `overallScore` 77 and every category defaulted to score 70 with empty
tips. -/
theorem claim_C4_amended :
    (∀ uuid (fs : List (String × JSVal)),
      hasField fs "content" = false → hasField fs "contentScore" = false →
      hasField fs "contentTips" = false →
      getProp (toAIResponseFromJSON uuid (.obj fs)) "content" =
        .obj [("score", .num 70), ("tips", .arr [])]) ∧
    (∀ uuid (fs : List (String × JSVal)),
      hasField fs "skills" = false → hasField fs "skillsTips" = false →
      hasField fs "skillsMissing" = false →
      getProp (toAIResponseFromJSON uuid (.obj fs)) "skills" =
        .obj [("score", .num 70), ("tips", .arr []), ("missing", .arr [])]) ∧
    (∀ uuid (fs : List (String × JSVal)),
      hasField fs "structure" = false → hasField fs "structureTips" = false →
      getProp (toAIResponseFromJSON uuid (.obj fs)) "structure" =
        .obj [("score", .num 70), ("tips", .arr [])]) ∧
    (∀ uuid (fs : List (String × JSVal)),
      hasField fs "toneAndStyle" = false → hasField fs "tone_and_style" = false →
      hasField fs "toneTips" = false →
      getProp (toAIResponseFromJSON uuid (.obj fs)) "toneAndStyle" =
        .obj [("score", .num 70), ("tips", .arr [])]) ∧
    (∀ uuid (fs : List (String × JSVal)),
      hasField fs "tips" = false →
      getProp (toAIResponseFromJSON uuid (.obj fs)) "tips" = .arr []) ∧
    (∀ uuid, ollamaFeedback uuid
        (OllamaHTTP.ok (.obj [("response", .str "\x7b\"overallScore\":77\x7d")])) =
      .ok (toAIResponseFromJSON uuid (.obj [("overallScore", .num 77)]))) ∧
    (∀ uuid,
      getProp (toAIResponseFromJSON uuid (.obj [("overallScore", .num 77)]))
        "overallScore" = .num 77 ∧
      getProp (toAIResponseFromJSON uuid (.obj [("overallScore", .num 77)]))
        "content" = .obj [("score", .num 70), ("tips", .arr [])] ∧
      getProp (toAIResponseFromJSON uuid (.obj [("overallScore", .num 77)]))
        "skills" = .obj [("score", .num 70), ("tips", .arr []), ("missing", .arr [])] ∧
      getProp (toAIResponseFromJSON uuid (.obj [("overallScore", .num 77)]))
        "structure" = .obj [("score", .num 70), ("tips", .arr [])] ∧
      getProp (toAIResponseFromJSON uuid (.obj [("overallScore", .num 77)]))
        "toneAndStyle" = .obj [("score", .num 70), ("tips", .arr [])] ∧
      getProp (toAIResponseFromJSON uuid (.obj [("overallScore", .num 77)]))
        "tips" = .arr []) := by
  refine ⟨?_, ?_, ?_, ?_, ?_, fun uuid => rfl,
    fun uuid => ⟨rfl, rfl, rfl, rfl, rfl, rfl⟩⟩
  · intro uuid fs h1 h2 h3
    unfold toAIResponseFromJSON spreadInto
    rw [show spreadFields (JSVal.obj fs) = fs from rfl,
      getProp_foldl_setProp_not_has fs _ _ h1]
    simp [getProp, getField, jsCoalesce, isNullish,
      getField_of_not_hasField h1, getField_of_not_hasField h2, getField_of_not_hasField h3]
  · intro uuid fs h1 h2 h3
    unfold toAIResponseFromJSON spreadInto
    rw [show spreadFields (JSVal.obj fs) = fs from rfl,
      getProp_foldl_setProp_not_has fs _ _ h1]
    simp [getProp, getField, jsCoalesce, isNullish,
      getField_of_not_hasField h1, getField_of_not_hasField h2, getField_of_not_hasField h3]
  · intro uuid fs h1 h2
    unfold toAIResponseFromJSON spreadInto
    rw [show spreadFields (JSVal.obj fs) = fs from rfl,
      getProp_foldl_setProp_not_has fs _ _ h1]
    simp [getProp, getField, jsCoalesce, isNullish,
      getField_of_not_hasField h1, getField_of_not_hasField h2]
  · intro uuid fs h1 h2 h3
    unfold toAIResponseFromJSON spreadInto
    rw [show spreadFields (JSVal.obj fs) = fs from rfl,
      getProp_foldl_setProp_not_has fs _ _ h1]
    simp [getProp, getField, jsCoalesce, isNullish,
      getField_of_not_hasField h1, getField_of_not_hasField h2, getField_of_not_hasField h3]
  · intro uuid fs h1
    unfold toAIResponseFromJSON spreadInto
    rw [show spreadFields (JSVal.obj fs) = fs from rfl,
      getProp_foldl_setProp_not_has fs _ _ h1]
    simp [getProp, getField, jsCoalesce, isNullish, getField_of_not_hasField h1]

/-- Claim C4, witness: the amended theorem applied at the scenario-B parsed
reply. -/
theorem claim_C4_witness :
    getProp (toAIResponseFromJSON "u" (.obj [("overallScore", .num 77)])) "content" =
      .obj [("score", .num 70), ("tips", .arr [])] ∧
    ollamaFeedback "u" (OllamaHTTP.ok (.obj [("response", .str "\x7b\"overallScore\":77\x7d")])) =
      .ok (toAIResponseFromJSON "u" (.obj [("overallScore", .num 77)])) :=
  ⟨claim_C4_amended.1 "u" [("overallScore", .num 77)] rfl rfl rfl,
   claim_C4_amended.2.2.2.2.2.1 "u"⟩

/-- Claim C4, counterexample to the original claim: for a reply whose
`content` category is present but carries no score, the mapped record's
`content.score` stays absent instead of receiving the default 70. -/
theorem claim_C4_counterexample :
    getProp (getProp (toAIResponseFromJSON "u" (.obj [("content", .obj [])])) "content")
      "score" = JSVal.undef ∧
    getProp (getProp (toAIResponseFromJSON "u" (.obj [("content", .obj [])])) "content")
      "score" ≠ .num 70 := by
  refine ⟨rfl, ?_⟩
  intro h
  rw [show getProp (getProp (toAIResponseFromJSON "u" (.obj [("content", .obj [])]))
    "content") "score" = JSVal.undef from rfl] at h
  simp at h

/-! ## Claims C2 and C10 -/

theorem handleAnalyze_reach (env : AnalyzeEnv) (p : AnalyzeParams)
    (h1 : isTruthy (getProp (pickUploaded env.uploadPdfResult) "path") = true)
    (h2 : isFalsy (jsCoalesce (getProp env.imageResult "file") .null) = false)
    (h3 : isTruthy (getProp (pickUploaded env.uploadImgResult) "path") = true) :
    handleAnalyze env p =
      ((analyzeFinish env (analyzeData env p) ("resume:" ++ env.uuid)).1,
        AnalyzeEvent.kvSet ("resume:" ++ env.uuid) (analyzeData env p) ::
          AnalyzeEvent.aiInvoke ::
          (analyzeFinish env (analyzeData env p) ("resume:" ++ env.uuid)).2) := by
  unfold handleAnalyze
  simp [h1, h2, h3]

/-- On the error tail relevant to claim C2 — the resolver resolved, the
reply is not object-shaped and its extracted text does not parse — the
finish step reports an error status and performs no extra write. -/
theorem analyzeFinish_error_no_write (env : AnalyzeEnv) (data : JSVal) (key : String)
    (fb : JSVal) (hai : env.aiResult = .ok fb) (hobj : isObjLike fb = false)
    (hparse : parseJSON (extractFeedbackText fb) = none) :
    (analyzeFinish env data key).2 = [] ∧
    isErrorStatus (analyzeFinish env data key).1 = true := by
  unfold analyzeFinish
  rw [hai]
  by_cases hfalsy : isFalsy fb = true
  · simp [hfalsy]
    rfl
  · simp only [hfalsy, Bool.false_eq_true, if_false, Bool.not_eq_true] at *
    by_cases hemp : extractFeedbackText fb = ""
    · simp [hfalsy, hemp]
      rfl
    · simp only [hfalsy, Bool.false_eq_true, if_false, beq_iff_eq, hemp, hparse, hobj]
      simp [hemp]
      rfl

/-- Claim C2, confirmed.  Whenever the flow reaches the AI stage (both
uploads carry a path and the conversion yielded a file), the placeholder
record — whose `feedback` is the empty string — is written under
`resume:<uuid>` strictly before the AI resolver is invoked; and when the
reply's extracted text fails to parse as JSON and the reply is not an
object, the flow ends in an error status with no second write, so the
placeholder remains the persisted state. -/
theorem claim_C2_placeholder_then_no_overwrite :
    ∀ (env : AnalyzeEnv) (p : AnalyzeParams),
      isTruthy (getProp (pickUploaded env.uploadPdfResult) "path") = true →
      isFalsy (jsCoalesce (getProp env.imageResult "file") .null) = false →
      isTruthy (getProp (pickUploaded env.uploadImgResult) "path") = true →
      ((handleAnalyze env p).2 =
          AnalyzeEvent.kvSet ("resume:" ++ env.uuid) (analyzeData env p) ::
            AnalyzeEvent.aiInvoke ::
            (analyzeFinish env (analyzeData env p) ("resume:" ++ env.uuid)).2 ∧
        getProp (analyzeData env p) "feedback" = .str "") ∧
      (∀ fb, env.aiResult = .ok fb → isObjLike fb = false →
        parseJSON (extractFeedbackText fb) = none →
        (handleAnalyze env p).2 =
          [AnalyzeEvent.kvSet ("resume:" ++ env.uuid) (analyzeData env p),
            AnalyzeEvent.aiInvoke] ∧
        isErrorStatus (handleAnalyze env p).1 = true) := by
  intro env p h1 h2 h3
  have hred := handleAnalyze_reach env p h1 h2 h3
  constructor
  · exact ⟨by rw [hred], rfl⟩
  · intro fb hai hobj hparse
    obtain ⟨hnil, herr⟩ :=
      analyzeFinish_error_no_write env (analyzeData env p) ("resume:" ++ env.uuid) fb
        hai hobj hparse
    constructor
    · rw [hred]
      simp [hnil]
    · rw [hred]
      exact herr

/-- Claim C2, witness: the theorem applied to a concrete environment whose
resolver returns the non-JSON string reply "oops not json". -/
theorem claim_C2_witness :
    (handleAnalyze
        ⟨.obj [("path", .str "/p")], .obj [("file", .str "f")], .obj [("path", .str "/i")],
          "u1", .ok (.str "oops not json")⟩ ⟨"c", "t", "d"⟩).2 =
      [AnalyzeEvent.kvSet "resume:u1"
          (analyzeData ⟨.obj [("path", .str "/p")], .obj [("file", .str "f")],
            .obj [("path", .str "/i")], "u1", .ok (.str "oops not json")⟩ ⟨"c", "t", "d"⟩),
        AnalyzeEvent.aiInvoke] ∧
    isErrorStatus (handleAnalyze
        ⟨.obj [("path", .str "/p")], .obj [("file", .str "f")], .obj [("path", .str "/i")],
          "u1", .ok (.str "oops not json")⟩ ⟨"c", "t", "d"⟩).1 = true :=
  (claim_C2_placeholder_then_no_overwrite
      ⟨.obj [("path", .str "/p")], .obj [("file", .str "f")], .obj [("path", .str "/i")],
        "u1", .ok (.str "oops not json")⟩ ⟨"c", "t", "d"⟩ rfl rfl rfl).2
    (.str "oops not json") rfl rfl rfl

/-- Claim C10, confirmed.  Within one submission that performs both writes
(the extracted reply parses, or the reply is object-shaped), the two records
written under `resume:<uuid>` agree on every key other than `feedback` — in
particular on `id`, `resumePath`, `imagePath`, `companyName`, `jobTitle`
and `jobDescription`; only `feedback` changes between the placeholder and
the final record. -/
theorem claim_C10_frame :
    ∀ (env : AnalyzeEnv) (p : AnalyzeParams) (fb : JSVal),
      isTruthy (getProp (pickUploaded env.uploadPdfResult) "path") = true →
      isFalsy (jsCoalesce (getProp env.imageResult "file") .null) = false →
      isTruthy (getProp (pickUploaded env.uploadImgResult) "path") = true →
      env.aiResult = .ok fb → isFalsy fb = false → extractFeedbackText fb ≠ "" →
      (parseJSON (extractFeedbackText fb) ≠ none ∨ isObjLike fb = true) →
      ∃ r2, (handleAnalyze env p).2 =
          [AnalyzeEvent.kvSet ("resume:" ++ env.uuid) (analyzeData env p),
            AnalyzeEvent.aiInvoke,
            AnalyzeEvent.kvSet ("resume:" ++ env.uuid) r2] ∧
        (∀ k, k ≠ "feedback" → getProp r2 k = getProp (analyzeData env p) k) := by
  intro env p fb h1 h2 h3 hai hfalsy hemp hsec
  have hred := handleAnalyze_reach env p h1 h2 h3
  have hfin : ∃ v, analyzeFinish env (analyzeData env p) ("resume:" ++ env.uuid) =
      ("Analysis complete. Redirecting...",
        [AnalyzeEvent.kvSet ("resume:" ++ env.uuid)
          (setProp (analyzeData env p) "feedback" v)]) := by
    unfold analyzeFinish
    rw [hai]
    cases hparse : parseJSON (extractFeedbackText fb) with
    | some parsed =>
      refine ⟨parsed, ?_⟩
      simp [hfalsy, hemp, hparse]
    | none =>
      have hobj : isObjLike fb = true := by
        rcases hsec with hcontra | hobj
        · exact absurd hparse hcontra
        · exact hobj
      refine ⟨fb, ?_⟩
      simp [hfalsy, hemp, hparse, hobj]
  obtain ⟨v, hv⟩ := hfin
  refine ⟨setProp (analyzeData env p) "feedback" v, ?_, ?_⟩
  · rw [hred, hv]
  · intro k hk
    exact getProp_setProp_ne _ _ _ _ (Ne.symm hk)

/-- Claim C10, witness: the theorem applied to a concrete run whose reply
parses as the JSON object `\x7b"overallScore":82\x7d`. -/
theorem claim_C10_witness :
    ∃ r2, (handleAnalyze
        ⟨.arr [.obj [("path", .str "/p")]], .obj [("file", .str "f")],
          .obj [("path", .str "/i")], "u1",
          .ok (.str "\x7b\"overallScore\":82\x7d")⟩ ⟨"c", "t", "d"⟩).2 =
      [AnalyzeEvent.kvSet "resume:u1"
          (analyzeData ⟨.arr [.obj [("path", .str "/p")]], .obj [("file", .str "f")],
            .obj [("path", .str "/i")], "u1",
            .ok (.str "\x7b\"overallScore\":82\x7d")⟩ ⟨"c", "t", "d"⟩),
        AnalyzeEvent.aiInvoke,
        AnalyzeEvent.kvSet "resume:u1" r2] ∧
      (∀ k, k ≠ "feedback" →
        getProp r2 k = getProp (analyzeData ⟨.arr [.obj [("path", .str "/p")]],
          .obj [("file", .str "f")], .obj [("path", .str "/i")], "u1",
          .ok (.str "\x7b\"overallScore\":82\x7d")⟩ ⟨"c", "t", "d"⟩) k) :=
  claim_C10_frame
    ⟨.arr [.obj [("path", .str "/p")]], .obj [("file", .str "f")],
      .obj [("path", .str "/i")], "u1", .ok (.str "\x7b\"overallScore\":82\x7d")⟩
    ⟨"c", "t", "d"⟩ (.str "\x7b\"overallScore\":82\x7d") rfl rfl rfl rfl rfl
    (by decide)
    (Or.inl (by
      intro h
      rw [show parseJSON (extractFeedbackText (.str "\x7b\"overallScore\":82\x7d")) =
        some (.obj [("overallScore", .num 82)]) from rfl] at h
      exact Option.noConfusion h))

/-! ## Round trip of the JSON model: numerals -/

theorem ndg_fuel : ∀ (f : Nat) (n : Nat), n < f →
    natDigitsGo digitChar f n = natDigits n := by
  intro f
  induction f using Nat.strong_induction_on with
  | _ f ih =>
    intro n hn
    match f with
    | f0+1 =>
      by_cases h10 : n < 10
      · simp [natDigitsGo, natDigits, h10]
      · have hdiv : n / 10 < n := Nat.div_lt_self (by omega) (by omega)
        have e1 : natDigitsGo digitChar (f0+1) n =
            natDigitsGo digitChar f0 (n / 10) ++ [digitChar (n % 10)] := by
          simp [natDigitsGo, h10]
        have e2 : natDigits n = natDigitsGo digitChar n (n / 10) ++ [digitChar (n % 10)] := by
          simp [natDigits, natDigitsGo, h10]
        rw [e1, e2, ih f0 (by omega) _ (by omega), ih n (by omega) _ (by omega)]

/-- The recursion `natDigits` satisfies. -/
theorem natDigits_eq (n : Nat) : natDigits n =
    if n < 10 then [digitChar n] else natDigits (n / 10) ++ [digitChar (n % 10)] := by
  by_cases h10 : n < 10
  · simp [natDigits, natDigitsGo, h10]
  · have hdiv : n / 10 < n := Nat.div_lt_self (by omega) (by omega)
    have e : natDigits n = natDigitsGo digitChar n (n / 10) ++ [digitChar (n % 10)] := by
      show natDigitsGo digitChar (n + 1) n = _
      simp [natDigitsGo, h10]
    rw [e, ndg_fuel n (n / 10) hdiv, if_neg h10]

theorem digitChar_digit (d : Nat) (h : d < 10) :
    isDigitCh (digitChar d) = true ∧ (digitChar d).toNat - 48 = d ∧
    (digitChar d).toNat = 48 + d := by
  interval_cases d <;> exact ⟨rfl, rfl, rfl⟩

theorem natDigits_ne_nil (n : Nat) : natDigits n ≠ [] := by
  rw [natDigits_eq]
  split
  · simp
  · simp

theorem natDigits_all_digits : ∀ n c, c ∈ natDigits n → isDigitCh c = true := by
  intro n
  induction n using Nat.strong_induction_on with
  | _ n ih =>
    intro c hc
    rw [natDigits_eq] at hc
    by_cases h10 : n < 10
    · rw [if_pos h10] at hc
      simp only [List.mem_singleton] at hc
      rw [hc]
      exact (digitChar_digit n h10).1
    · rw [if_neg h10] at hc
      rcases List.mem_append.mp hc with h | h
      · exact ih (n / 10) (Nat.div_lt_self (by omega) (by omega)) c h
      · simp only [List.mem_singleton] at h
        rw [h]
        exact (digitChar_digit (n % 10) (Nat.mod_lt _ (by omega))).1

theorem natDigits_head_ne_zero : ∀ n, 1 ≤ n → ∀ c t, natDigits n = c :: t → c ≠ '0' := by
  intro n
  induction n using Nat.strong_induction_on with
  | _ n ih =>
    intro hn c t heq
    rw [natDigits_eq] at heq
    by_cases h10 : n < 10
    · rw [if_pos h10] at heq
      simp only [List.cons.injEq] at heq
      rw [← heq.1]
      interval_cases n <;> decide
    · rw [if_neg h10] at heq
      obtain ⟨c0, t0, hct⟩ : ∃ c0 t0, natDigits (n / 10) = c0 :: t0 := by
        cases hh : natDigits (n / 10) with
        | nil => exact absurd hh (natDigits_ne_nil _)
        | cons a b => exact ⟨a, b, rfl⟩
      rw [hct] at heq
      simp only [List.cons_append, List.cons.injEq] at heq
      rw [← heq.1]
      exact ih (n / 10) (Nat.div_lt_self (by omega) (by omega))
        (by omega) c0 t0 hct

theorem spanDigits_append : ∀ (ds rest : List Char), (∀ c ∈ ds, isDigitCh c = true) →
    (rest = [] ∨ isDigitCh (rest.headD ' ') = false) →
    spanDigits (ds ++ rest) = (ds, rest) := by
  intro ds
  induction ds with
  | nil =>
    intro rest _ hrest
    rcases hrest with h | h
    · subst h; rfl
    · cases rest with
      | nil => rfl
      | cons c t =>
        simp only [List.headD_cons] at h
        simp [spanDigits, h]
  | cons c ds ih =>
    intro rest hds hrest
    have hc : isDigitCh c = true := hds c (by simp)
    simp only [List.cons_append, spanDigits, hc, if_true, List.append_eq]
    rw [ih rest (fun x hx => hds x (by simp [hx])) hrest]

theorem decNat_foldl : ∀ n acc, List.foldl (fun a c => a * 10 + (c.toNat - 48)) acc
    (natDigits n) = acc * 10 ^ (natDigits n).length + n := by
  intro n
  induction n using Nat.strong_induction_on with
  | _ n ih =>
    intro acc
    rw [natDigits_eq]
    by_cases h10 : n < 10
    · rw [if_pos h10]
      simp [List.foldl, (digitChar_digit n h10).2.1]
    · rw [if_neg h10]
      rw [List.foldl_append]
      rw [ih (n / 10) (Nat.div_lt_self (by omega) (by omega)) acc]
      simp only [List.foldl_cons, List.foldl_nil, List.length_append,
        List.length_singleton]
      rw [(digitChar_digit (n % 10) (Nat.mod_lt _ (by omega))).2.1]
      rw [pow_succ]
      have : n / 10 * 10 + n % 10 = n := by omega
      ring_nf
      omega

theorem decNat_natDigits (n : Nat) : decNat (natDigits n) = n := by
  unfold decNat
  rw [decNat_foldl n 0]
  simp

theorem isDigitCh_ne (c : Char) (h : isDigitCh c = true) :
    c ≠ '-' ∧ c ≠ '.' ∧ c ≠ 'e' ∧ c ≠ 'E' ∧ c ≠ ']' ∧ c ≠ ',' ∧ c ≠ '\x7d' ∧
    isWS c = false ∧ c ≠ 'n' ∧ c ≠ 't' ∧ c ≠ 'f' ∧ c ≠ '"' ∧ c ≠ '[' ∧ c ≠ '\x7b' := by
  have ne : ∀ x : Char, isDigitCh x = false → c ≠ x := by
    intro x hx he
    rw [he, hx] at h
    exact Bool.false_ne_true h
  have w1 : c ≠ ' ' := ne ' ' (by decide)
  have w2 : c ≠ '\n' := ne '\n' (by decide)
  have w3 : c ≠ '\t' := ne '\t' (by decide)
  have w4 : c ≠ '\x0d' := ne '\x0d' (by decide)
  have hws : isWS c = false := by simp [isWS, w1, w2, w3, w4]
  exact ⟨ne _ (by decide), ne _ (by decide), ne _ (by decide), ne _ (by decide),
    ne _ (by decide), ne _ (by decide), ne _ (by decide), hws, ne _ (by decide),
    ne _ (by decide), ne _ (by decide), ne _ (by decide), ne _ (by decide), ne _ (by decide)⟩

theorem okDelim_cases (rest : List Char) (h : okDelim rest = true) :
    rest = [] ∨ (∃ t, rest = ',' :: t) ∨ (∃ t, rest = ']' :: t) ∨ (∃ t, rest = '\x7d' :: t) := by
  cases rest with
  | nil => exact Or.inl rfl
  | cons c t =>
    simp only [okDelim, Bool.or_eq_true, decide_eq_true_eq] at h
    rcases h with (h | h) | h
    · exact Or.inr (Or.inl ⟨t, by rw [h]⟩)
    · exact Or.inr (Or.inr (Or.inl ⟨t, by rw [h]⟩))
    · exact Or.inr (Or.inr (Or.inr ⟨t, by rw [h]⟩))

theorem okDelim_facts (rest : List Char) (h : okDelim rest = true) :
    (rest = [] ∨ isDigitCh (rest.headD ' ') = false) ∧
    rest.headD ' ' ≠ '.' ∧ rest.headD ' ' ≠ 'e' ∧ rest.headD ' ' ≠ 'E' := by
  rcases okDelim_cases rest h with h0 | ⟨t, h0⟩ | ⟨t, h0⟩ | ⟨t, h0⟩ <;> subst h0
  · exact ⟨Or.inl rfl, by decide, by decide, by decide⟩
  · exact ⟨Or.inr (by decide : isDigitCh ',' = false),
      (by decide : (',' : Char) ≠ '.'), (by decide : (',' : Char) ≠ 'e'),
      (by decide : (',' : Char) ≠ 'E')⟩
  · exact ⟨Or.inr (by decide : isDigitCh ']' = false),
      (by decide : (']' : Char) ≠ '.'), (by decide : (']' : Char) ≠ 'e'),
      (by decide : (']' : Char) ≠ 'E')⟩
  · exact ⟨Or.inr (by decide : isDigitCh '\x7d' = false),
      (by decide : ('\x7d' : Char) ≠ '.'), (by decide : ('\x7d' : Char) ≠ 'e'),
      (by decide : ('\x7d' : Char) ≠ 'E')⟩

theorem parseNatToken_natDigits (m : Nat) (rest : List Char)
    (hd : rest = [] ∨ isDigitCh (rest.headD ' ') = false)
    (h1 : rest.headD ' ' ≠ '.') (h2 : rest.headD ' ' ≠ 'e') (h3 : rest.headD ' ' ≠ 'E') :
    parseNatToken (natDigits m ++ rest) = some (m, rest) := by
  unfold parseNatToken
  rw [spanDigits_append _ _ (natDigits_all_digits m) hd]
  simp only
  rw [if_neg (by simpa using natDigits_ne_nil m)]
  rw [if_neg ?_, if_neg (by
    rw [List.headD_eq_head?_getD] at h1 h2 h3
    simp [h1, h2, h3])]
  · rw [decNat_natDigits]
  · intro hcontra
    simp only [Bool.and_eq_true, decide_eq_true_eq] at hcontra
    obtain ⟨hlen, hzero⟩ := hcontra
    obtain ⟨c, t, hct⟩ : ∃ c t, natDigits m = c :: t := by
      cases hh : natDigits m with
      | nil => exact absurd hh (natDigits_ne_nil _)
      | cons a b => exact ⟨a, b, rfl⟩
    rw [hct] at hzero hlen
    simp only [List.headD_cons] at hzero
    by_cases hm : 1 ≤ m
    · exact natDigits_head_ne_zero m hm c t hct hzero
    · have hm0 : m = 0 := by omega
      subst hm0
      rw [show natDigits 0 = ['0'] from rfl] at hct
      simp only [List.cons.injEq] at hct
      rw [← hct.2] at hlen
      simp at hlen

theorem intChars_head (n : Int) :
    ∃ c t, intChars n = c :: t ∧ (c = '-' ∨ isDigitCh c = true) := by
  cases n with
  | ofNat m =>
    obtain ⟨c, t, hct⟩ : ∃ c t, natDigits m = c :: t := by
      cases hh : natDigits m with
      | nil => exact absurd hh (natDigits_ne_nil _)
      | cons a b => exact ⟨a, b, rfl⟩
    exact ⟨c, t, hct, Or.inr (natDigits_all_digits m c (by rw [hct]; simp))⟩
  | negSucc m => exact ⟨'-', natDigits (m + 1), rfl, Or.inl rfl⟩

theorem parseIntToken_intChars (n : Int) (rest : List Char) (hok : okDelim rest = true) :
    parseIntToken (intChars n ++ rest) = some (n, rest) := by
  obtain ⟨hd, h1, h2, h3⟩ := okDelim_facts rest hok
  cases n with
  | ofNat m =>
    obtain ⟨c, t, hct⟩ : ∃ c t, natDigits m = c :: t := by
      cases hh : natDigits m with
      | nil => exact absurd hh (natDigits_ne_nil _)
      | cons a b => exact ⟨a, b, rfl⟩
    have hdig : isDigitCh c = true := natDigits_all_digits m c (by rw [hct]; simp)
    unfold parseIntToken
    rw [show intChars (Int.ofNat m) = natDigits m from rfl, hct]
    simp only [List.cons_append, List.headD_cons]
    rw [if_neg (isDigitCh_ne c hdig).1]
    rw [show (c :: (t ++ rest)) = natDigits m ++ rest by rw [hct]; simp]
    rw [parseNatToken_natDigits m rest hd h1 h2 h3]
    rfl
  | negSucc m =>
    unfold parseIntToken
    rw [show intChars (Int.negSucc m) = '-' :: natDigits (m + 1) from rfl]
    simp only [List.cons_append, List.headD_cons, if_pos rfl, List.tail_cons]
    rw [parseNatToken_natDigits (m + 1) rest hd h1 h2 h3]
    simp only [Option.map_some']
    rw [Int.negSucc_eq]
    rfl

/-! ## Round trip of the JSON model: full values

`parseJSON` inverts `jsonStringify` on every serializable value (claim C8).
The development proceeds bottom-up: string-literal bodies, one-step
unfoldings of the fueled grammar, the object-member fold, a fuel bound, and
the main induction on fuel. -/

/-- Reading back a lower-case hexadecimal digit character. -/
theorem hexVal_hexDigitChar : ∀ d : Nat, d < 16 → hexVal (hexDigitChar d) = some d := by decide

/-- Whitespace skipping is the identity on input that starts with a
non-whitespace character. -/
theorem skipWS_cons_of_not_ws (c : Char) (t : List Char) (h : isWS c = false) :
    skipWS (c :: t) = c :: t := by
  simp [skipWS, List.dropWhile_cons, h]

/-- One-step unfolding of `parseValue` at positive fuel. -/
theorem parseValue_succ (fuel : Nat) (cs : List Char) :
    parseValue (fuel+1) cs =
      match skipWS cs with
      | 'n' :: 'u' :: 'l' :: 'l' :: rest => some (.null, rest)
      | 't' :: 'r' :: 'u' :: 'e' :: rest => some (.bool true, rest)
      | 'f' :: 'a' :: 'l' :: 's' :: 'e' :: rest => some (.bool false, rest)
      | '"' :: rest =>
        match parseStringBody rest with
        | some (content, r) => some (.str (String.mk content), r)
        | none => none
      | '[' :: rest =>
        match skipWS rest with
        | ']' :: r => some (.arr [], r)
        | _ =>
          match parseElems fuel rest with
          | some (xs, r) => some (.arr xs, r)
          | none => none
      | '\x7b' :: rest =>
        match skipWS rest with
        | '\x7d' :: r => some (.obj [], r)
        | _ =>
          match parseMembers fuel rest with
          | some (fs, r) =>
            some (.obj (fs.foldl (fun acc kv => setField acc kv.1 kv.2) []), r)
          | none => none
      | other =>
        match parseIntToken other with
        | some (n, r) => some (.num n, r)
        | none => none := rfl

/-- The `\u00XX` escape digits of a control character decode to its code. -/
theorem hex4_control (d : Nat) (h : d < 32) :
    hex4 '0' '0' (hexDigitChar (d / 16)) (hexDigitChar (d % 16)) = some d := by
  unfold hex4
  rw [show hexVal '0' = some 0 from rfl,
    hexVal_hexDigitChar (d / 16) (by omega),
    hexVal_hexDigitChar (d % 16) (Nat.mod_lt _ (by norm_num))]
  exact congrArg some (by omega)

/-- Round trip of the string-literal body: parsing the escaped form of a
character sequence followed by the closing quote recovers the sequence and
the remaining input. -/
theorem psb_escList_rt : ∀ (cs rest : List Char),
    parseStringBody (escList cs ++ '"' :: rest) = some (cs, rest) := by
  intro cs
  induction cs with
  | nil => intro rest; rfl
  | cons c cs ih =>
    intro rest
    by_cases h1 : c = '"'
    · subst h1
      show (parseStringBody (escList cs ++ '"' :: rest)).map
        (fun p => (('"' : Char) :: p.1, p.2)) = some ('"' :: cs, rest)
      rw [ih]; rfl
    · by_cases h2 : c = '\\'
      · subst h2
        show (parseStringBody (escList cs ++ '"' :: rest)).map
          (fun p => (('\\' : Char) :: p.1, p.2)) = some ('\\' :: cs, rest)
        rw [ih]; rfl
      · by_cases h3 : c = '\n'
        · subst h3
          show (parseStringBody (escList cs ++ '"' :: rest)).map
            (fun p => (('\n' : Char) :: p.1, p.2)) = some ('\n' :: cs, rest)
          rw [ih]; rfl
        · by_cases h4 : c = '\r'
          · subst h4
            show (parseStringBody (escList cs ++ '"' :: rest)).map
              (fun p => (('\r' : Char) :: p.1, p.2)) = some ('\r' :: cs, rest)
            rw [ih]; rfl
          · by_cases h5 : c = '\t'
            · subst h5
              show (parseStringBody (escList cs ++ '"' :: rest)).map
                (fun p => (('\t' : Char) :: p.1, p.2)) = some ('\t' :: cs, rest)
              rw [ih]; rfl
            · by_cases h6 : c = '\x08'
              · subst h6
                show (parseStringBody (escList cs ++ '"' :: rest)).map
                  (fun p => (('\x08' : Char) :: p.1, p.2)) = some ('\x08' :: cs, rest)
                rw [ih]; rfl
              · by_cases h7 : c = '\x0c'
                · subst h7
                  show (parseStringBody (escList cs ++ '"' :: rest)).map
                    (fun p => (('\x0c' : Char) :: p.1, p.2)) = some ('\x0c' :: cs, rest)
                  rw [ih]; rfl
                · by_cases h8 : c.toNat < 0x20
                  · have he : escChar c = ['\\', 'u', '0', '0',
                        hexDigitChar (c.toNat / 16), hexDigitChar (c.toNat % 16)] := by
                      unfold escChar
                      rw [if_neg h1, if_neg h2, if_neg h3, if_neg h4, if_neg h5,
                        if_neg h6, if_neg h7, if_pos h8]
                    rw [show escList (c :: cs) = escChar c ++ escList cs from rfl, he]
                    show (hex4 '0' '0' (hexDigitChar (c.toNat / 16))
                        (hexDigitChar (c.toNat % 16))).bind
                      (fun n => if n < 0xd800 || (0xe000 <= n && n < 0x110000) then
                        (parseStringBody (escList cs ++ '"' :: rest)).map
                          (fun p => (Char.ofNat n :: p.1, p.2))
                      else none) = some (c :: cs, rest)
                    have hlo : (decide (c.toNat < 0xd800) ||
                        (decide (0xe000 ≤ c.toNat) && decide (c.toNat < 0x110000))) = true := by
                      simp only [Bool.or_eq_true, decide_eq_true_eq]
                      exact Or.inl (by omega)
                    rw [hex4_control c.toNat h8, Option.some_bind, if_pos hlo, ih,
                      Char.ofNat_toNat]
                    rfl
                  · have he : escChar c = [c] := by
                      unfold escChar
                      rw [if_neg h1, if_neg h2, if_neg h3, if_neg h4, if_neg h5,
                        if_neg h6, if_neg h7, if_neg h8]
                    rw [show escList (c :: cs) = escChar c ++ escList cs from rfl, he]
                    simp only [List.cons_append, List.nil_append]
                    rw [psb_cons, if_neg h1, if_neg h2, if_neg h8, ih]
                    rfl

/-- Serialized elements of a non-`undefined` head element. -/
theorem strElemsC_cons (x : JSVal) (xs : List JSVal) (h : x ≠ JSVal.undef) :
    strElemsC (x :: xs) = ',' :: (stringifyChars x ++ strElemsC xs) := by
  cases x <;> first | exact absurd rfl h | rfl

/-- Serialized members of a non-`undefined` head member. -/
theorem strMemsC_cons (k : String) (v : JSVal) (fs : List (String × JSVal)) (h : v ≠ JSVal.undef) :
    strMemsC ((k, v) :: fs) = ',' :: (quoteChars k ++ ':' :: stringifyChars v ++ strMemsC fs) := by
  cases v <;> first | exact absurd rfl h | rfl

/-- A serializable value is not `undefined`. -/
theorem WfJ_ne_undef (v : JSVal) (h : WfJ v = true) : v ≠ JSVal.undef := by
  intro e; subst e; simp [WfJ] at h

/-- The first character of a serialized number is no keyword, string,
array or object opener, no whitespace, and no closing delimiter. -/
theorem numHead_facts (c : Char) (h : c = '-' ∨ isDigitCh c = true) :
    isWS c = false ∧ c ≠ 'n' ∧ c ≠ 't' ∧ c ≠ 'f' ∧ c ≠ '"' ∧ c ≠ '[' ∧ c ≠ '\x7b' ∧
    c ≠ ']' ∧ c ≠ '\x7d' := by
  rcases h with h | h
  · subst h
    exact ⟨rfl, by decide, by decide, by decide, by decide, by decide, by decide,
      by decide, by decide⟩
  · obtain ⟨_, _, _, _, h5, _, h7, h8, h9, h10, h11, h12, h13, h14⟩ := isDigitCh_ne c h
    exact ⟨h8, h9, h10, h11, h12, h13, h14, h5, h7⟩

/-- Serialized output is never empty, and its first character is neither
whitespace nor a closing delimiter. -/
theorem stringifyChars_head (v : JSVal) :
    ∃ c t, stringifyChars v = c :: t ∧ isWS c = false ∧ c ≠ ']' ∧ c ≠ '\x7d' := by
  cases v with
  | undef => exact ⟨'n', _, rfl, by decide, by decide, by decide⟩
  | null => exact ⟨'n', _, rfl, by decide, by decide, by decide⟩
  | bool b =>
    cases b
    · exact ⟨'f', _, rfl, by decide, by decide, by decide⟩
    · exact ⟨'t', _, rfl, by decide, by decide, by decide⟩
  | num n =>
    obtain ⟨c, t, hct, hcc⟩ := intChars_head n
    obtain ⟨hws, _, _, _, _, _, _, hrb, hrc⟩ := numHead_facts c hcc
    exact ⟨c, t, by rw [show stringifyChars (.num n) = intChars n from rfl, hct], hws, hrb, hrc⟩
  | str s => exact ⟨'"', _, rfl, by decide, by decide, by decide⟩
  | arr xs => exact ⟨'[', _, rfl, by decide, by decide, by decide⟩
  | obj fs => exact ⟨'\x7b', _, rfl, by decide, by decide, by decide⟩

/-- Every value needs at least one unit of parser fuel. -/
theorem pvFuel_pos (v : JSVal) : 1 ≤ pvFuel v := by
  cases v <;> simp [pvFuel]

/-- One-step unfolding of `parseElems` at positive fuel. -/
theorem parseElems_succ (fuel : Nat) (cs : List Char) :
    parseElems (fuel+1) cs =
      match parseValue fuel cs with
      | some (v, r) =>
        match skipWS r with
        | ',' :: r2 =>
          match parseElems fuel r2 with
          | some (vs, r3) => some (v :: vs, r3)
          | none => none
        | ']' :: r2 => some ([v], r2)
        | _ => none
      | none => none := rfl

/-- Assigning a fresh key appends the pair. -/
theorem setField_of_not_hasField (fs : List (String × JSVal)) (k : String) (v : JSVal)
    (h : hasField fs k = false) : setField fs k v = fs ++ [(k, v)] := by
  induction fs with
  | nil => rfl
  | cons kv fs ih =>
    obtain ⟨k2, w⟩ := kv
    simp only [hasField, Bool.or_eq_false_iff] at h
    rw [setField, if_neg (by simp [h.1]), ih h.2]
    rfl

/-- A member's key is present in its field list. -/
theorem hasField_of_mem (fs : List (String × JSVal)) (kv : String × JSVal)
    (h : kv ∈ fs) : hasField fs kv.1 = true := by
  induction fs with
  | nil => exact absurd h (List.not_mem_nil kv)
  | cons kv2 fs ih =>
    obtain ⟨k2, w⟩ := kv2
    rcases List.mem_cons.mp h with h | h
    · subst h; simp [hasField]
    · simp [hasField, ih h]

/-- Key presence distributes over concatenation. -/
theorem hasField_append (fs gs : List (String × JSVal)) (k : String) :
    hasField (fs ++ gs) k = (hasField fs k || hasField gs k) := by
  induction fs with
  | nil => rfl
  | cons kv fs ih =>
    obtain ⟨k2, w⟩ := kv
    simp [hasField, ih, Bool.or_assoc]

/-- Folding assignment over members with pairwise distinct keys, none of
which is already present, just concatenates them: this is how `parseValue`
rebuilds a parsed object from its raw member list. -/
theorem foldl_setField_rebuild : ∀ (fs acc : List (String × JSVal)),
    distinctKeys fs = true → (∀ kv ∈ fs, hasField acc kv.1 = false) →
    fs.foldl (fun a kv => setField a kv.1 kv.2) acc = acc ++ fs := by
  intro fs
  induction fs with
  | nil => intro acc _ _; simp
  | cons kv fs ih =>
    intro acc hd hacc
    obtain ⟨k, v⟩ := kv
    have hd' : (!(hasField fs k) && distinctKeys fs) = true := hd
    rw [Bool.and_eq_true, Bool.not_eq_true'] at hd'
    rw [List.foldl_cons, setField_of_not_hasField acc k v (hacc (k, v) (List.mem_cons_self _ _))]
    rw [ih (acc ++ [(k, v)]) hd'.2 ?_]
    · simp
    · intro kv2 h2
      rw [hasField_append, hacc kv2 (List.mem_cons_of_mem _ h2)]
      have hkk : (k == kv2.1) = false := by
        rw [Bool.eq_false_iff]
        intro hbe
        rw [beq_iff_eq] at hbe
        rw [hbe] at hd'
        exact absurd (hasField_of_mem fs kv2 h2) (by rw [hd'.1]; exact Bool.false_ne_true)
      have h3 : hasField [(k, v)] kv2.1 = false := by simp [hasField, hkk]
      rw [h3]
      rfl

set_option maxHeartbeats 1000000 in
/-- The JSON round trip, by induction on parser fuel: a serialized
serializable value followed by a delimiter-safe continuation parses back to
exactly that value, and likewise for element lists and member lists. -/
theorem parse_stringify_rt : ∀ (fuel : Nat),
    (∀ v rest, WfJ v = true → okDelim rest = true → pvFuel v ≤ fuel →
      parseValue fuel (stringifyChars v ++ rest) = some (v, rest)) ∧
    (∀ xs rest, xs ≠ [] → wfL xs = true → pvFuelL xs ≤ fuel →
      parseElems fuel ((strElemsC xs).drop 1 ++ ']' :: rest) = some (xs, rest)) ∧
    (∀ fs rest, fs ≠ [] → wfF fs = true → pvFuelF fs ≤ fuel →
      parseMembers fuel ((strMemsC fs).drop 1 ++ '\x7d' :: rest) = some (fs, rest)) := by
  intro fuel
  induction fuel with
  | zero =>
    refine ⟨?_, ?_, ?_⟩
    · intro v _ _ _ hfl
      exact absurd hfl (by have := pvFuel_pos v; omega)
    · intro xs _ hne _ hfl
      cases xs with
      | nil => exact absurd rfl hne
      | cons x xs =>
        have h1 : 1 + pvFuel x + pvFuelL xs ≤ 0 := hfl
        omega
    · intro fs _ hne _ hfl
      cases fs with
      | nil => exact absurd rfl hne
      | cons kv fs =>
        have h1 : 1 + pvFuel kv.2 + pvFuelF fs ≤ 0 := hfl
        omega
  | succ fuel ih =>
    obtain ⟨ihP, ihQ, ihR⟩ := ih
    refine ⟨?_, ?_, ?_⟩
    · -- parseValue round trip
      intro v rest hwf hok hfl
      cases v with
      | undef => exact absurd hwf (by rw [show WfJ JSVal.undef = false from rfl]; exact Bool.false_ne_true)
      | null => rfl
      | bool b => cases b <;> rfl
      | num n =>
        obtain ⟨c, t, hct, hcc⟩ := intChars_head n
        obtain ⟨hws, hn, ht, hf, hq, hlb, hob, _, _⟩ := numHead_facts c hcc
        rw [show stringifyChars (.num n) = intChars n from rfl]
        rw [parseValue_succ, hct, List.cons_append, skipWS_cons_of_not_ws c _ hws]
        split
        · rename_i heq
          rw [List.cons.injEq] at heq
          exact absurd heq.1 hn
        · rename_i heq
          rw [List.cons.injEq] at heq
          exact absurd heq.1 ht
        · rename_i heq
          rw [List.cons.injEq] at heq
          exact absurd heq.1 hf
        · rename_i heq
          rw [List.cons.injEq] at heq
          exact absurd heq.1 hq
        · rename_i heq
          rw [List.cons.injEq] at heq
          exact absurd heq.1 hlb
        · rename_i heq
          rw [List.cons.injEq] at heq
          exact absurd heq.1 hob
        · rw [show c :: (t ++ rest) = intChars n ++ rest by rw [hct]; rfl]
          rw [parseIntToken_intChars n rest hok]
      | str s =>
        have hshape : stringifyChars (.str s) ++ rest = '"' :: (escList s.data ++ '"' :: rest) := by
          show quoteChars s ++ rest = _
          simp [quoteChars]
        rw [hshape]
        show (match parseStringBody (escList s.data ++ '"' :: rest) with
              | some (content, r) => some (JSVal.str (String.mk content), r)
              | none => none) = some (.str s, rest)
        rw [psb_escList_rt]
      | arr xs =>
        cases xs with
        | nil => rfl
        | cons x xs =>
          have hx1 : (WfJ x && wfL xs) = true := hwf
          rw [Bool.and_eq_true] at hx1
          have hxu := WfJ_ne_undef x hx1.1
          have hfl' : 1 + (1 + pvFuel x + pvFuelL xs) ≤ fuel + 1 := hfl
          have hpl : pvFuelL (x :: xs) = 1 + pvFuel x + pvFuelL xs := rfl
          obtain ⟨c, t, hct, hcws, hcrb, _⟩ := stringifyChars_head x
          have hshape : stringifyChars (.arr (x :: xs)) ++ rest =
              '[' :: ((strElemsC (x :: xs)).drop 1 ++ ']' :: rest) := by
            show ('[' :: (strElemsC (x :: xs)).drop 1 ++ [']']) ++ rest = _
            simp
          rw [hshape]
          show (match skipWS ((strElemsC (x :: xs)).drop 1 ++ ']' :: rest) with
                | ']' :: r => some (JSVal.arr [], r)
                | _ =>
                  match parseElems fuel ((strElemsC (x :: xs)).drop 1 ++ ']' :: rest) with
                  | some (vs, r) => some (JSVal.arr vs, r)
                  | none => none) = some (.arr (x :: xs), rest)
          have hskT : skipWS ((strElemsC (x :: xs)).drop 1 ++ ']' :: rest) =
              c :: (t ++ (strElemsC xs ++ ']' :: rest)) := by
            rw [strElemsC_cons x xs hxu]
            simp only [List.drop_succ_cons, List.drop_zero, hct, List.cons_append,
              List.append_assoc]
            exact skipWS_cons_of_not_ws c _ hcws
          rw [hskT]
          split
          · rename_i heq
            rw [List.cons.injEq] at heq
            exact absurd heq.1 hcrb
          · rw [ihQ (x :: xs) rest (by simp) hwf (by omega)]
      | obj fs =>
        cases fs with
        | nil => rfl
        | cons kv fs =>
          obtain ⟨k, v⟩ := kv
          have hw : (distinctKeys ((k, v) :: fs) && wfF ((k, v) :: fs)) = true := hwf
          rw [Bool.and_eq_true] at hw
          have hv : (WfJ v && wfF fs) = true := hw.2
          rw [Bool.and_eq_true] at hv
          have hvu := WfJ_ne_undef v hv.1
          have hfl' : 1 + (1 + pvFuel v + pvFuelF fs) ≤ fuel + 1 := hfl
          have hpf : pvFuelF ((k, v) :: fs) = 1 + pvFuel v + pvFuelF fs := rfl
          have hshape : stringifyChars (.obj ((k, v) :: fs)) ++ rest =
              '\x7b' :: ((strMemsC ((k, v) :: fs)).drop 1 ++ '\x7d' :: rest) := by
            show ('\x7b' :: (strMemsC ((k, v) :: fs)).drop 1 ++ ['\x7d']) ++ rest = _
            simp
          rw [hshape]
          show (match skipWS ((strMemsC ((k, v) :: fs)).drop 1 ++ '\x7d' :: rest) with
                | '\x7d' :: r => some (JSVal.obj [], r)
                | _ =>
                  match parseMembers fuel ((strMemsC ((k, v) :: fs)).drop 1 ++ '\x7d' :: rest) with
                  | some (fs2, r) =>
                    some (JSVal.obj (fs2.foldl (fun acc kv => setField acc kv.1 kv.2) []), r)
                  | none => none) = some (.obj ((k, v) :: fs), rest)
          have hskT : skipWS ((strMemsC ((k, v) :: fs)).drop 1 ++ '\x7d' :: rest) =
              '"' :: ((escList k.data ++ ['"'] ++ (':' :: stringifyChars v ++ strMemsC fs)) ++
                '\x7d' :: rest) := by
            rw [strMemsC_cons k v fs hvu]
            simp only [List.drop_succ_cons, List.drop_zero, quoteChars, List.cons_append,
              List.append_assoc]
            exact skipWS_cons_of_not_ws '"' _ (by decide)
          rw [hskT]
          split
          · rename_i heq
            rw [List.cons.injEq] at heq
            exact absurd heq.1 (by decide)
          · rw [ihR ((k, v) :: fs) rest (by simp) hw.2 (by omega)]
            show some (JSVal.obj (((k, v) :: fs).foldl
                (fun acc kv => setField acc kv.1 kv.2) []), rest) =
              some (.obj ((k, v) :: fs), rest)
            rw [foldl_setField_rebuild ((k, v) :: fs) [] hw.1 (fun _ _ => rfl)]
            rfl
    · -- parseElems round trip
      intro xs rest hne hwl hfl
      cases xs with
      | nil => exact absurd rfl hne
      | cons x xs =>
        have hx1 : (WfJ x && wfL xs) = true := hwl
        rw [Bool.and_eq_true] at hx1
        have hxu := WfJ_ne_undef x hx1.1
        have hfl' : 1 + pvFuel x + pvFuelL xs ≤ fuel + 1 := hfl
        have hdrop : (strElemsC (x :: xs)).drop 1 ++ ']' :: rest =
            stringifyChars x ++ (strElemsC xs ++ ']' :: rest) := by
          rw [strElemsC_cons x xs hxu]
          simp
        rw [hdrop, parseElems_succ]
        cases xs with
        | nil =>
          rw [show strElemsC ([] : List JSVal) ++ ']' :: rest = ']' :: rest from rfl]
          rw [ihP x (']' :: rest) hx1.1 rfl (by omega)]
          rfl
        | cons y ys =>
          have hy1 : (WfJ y && wfL ys) = true := hx1.2
          rw [Bool.and_eq_true] at hy1
          have hyu := WfJ_ne_undef y hy1.1
          have hply : pvFuelL (y :: ys) = 1 + pvFuel y + pvFuelL ys := rfl
          have hsfx : strElemsC (y :: ys) ++ ']' :: rest =
              ',' :: ((strElemsC (y :: ys)).drop 1 ++ ']' :: rest) := by
            rw [strElemsC_cons y ys hyu]
            simp
          rw [hsfx, ihP x (',' :: ((strElemsC (y :: ys)).drop 1 ++ ']' :: rest)) hx1.1 rfl
            (by omega)]
          show (match parseElems fuel ((strElemsC (y :: ys)).drop 1 ++ ']' :: rest) with
                | some (vs, r3) => some (x :: vs, r3)
                | none => none) = some (x :: y :: ys, rest)
          rw [ihQ (y :: ys) rest (by simp) hx1.2 (by omega)]
    · -- parseMembers round trip
      intro fs rest hne hwm hfl
      cases fs with
      | nil => exact absurd rfl hne
      | cons kv fs =>
        obtain ⟨k, v⟩ := kv
        have hv : (WfJ v && wfF fs) = true := hwm
        rw [Bool.and_eq_true] at hv
        have hvu := WfJ_ne_undef v hv.1
        have hfl' : 1 + pvFuel v + pvFuelF fs ≤ fuel + 1 := hfl
        have hdrop : (strMemsC ((k, v) :: fs)).drop 1 ++ '\x7d' :: rest =
            '"' :: (escList k.data ++ '"' ::
              (':' :: (stringifyChars v ++ (strMemsC fs ++ '\x7d' :: rest)))) := by
          rw [strMemsC_cons k v fs hvu]
          simp [quoteChars]
        rw [hdrop]
        show (match parseStringBody (escList k.data ++ '"' ::
                (':' :: (stringifyChars v ++ (strMemsC fs ++ '\x7d' :: rest)))) with
              | some (kcs, r1) =>
                match skipWS r1 with
                | ':' :: r2 =>
                  match parseValue fuel r2 with
                  | some (v2, r3) =>
                    match skipWS r3 with
                    | ',' :: r4 =>
                      match parseMembers fuel r4 with
                      | some (fs2, r5) => some ((String.mk kcs, v2) :: fs2, r5)
                      | none => none
                    | '\x7d' :: r4 => some ([(String.mk kcs, v2)], r4)
                    | _ => none
                  | none => none
                | _ => none
              | none => none) = some ((k, v) :: fs, rest)
        rw [psb_escList_rt k.data]
        show (match parseValue fuel (stringifyChars v ++ (strMemsC fs ++ '\x7d' :: rest)) with
              | some (v2, r3) =>
                match skipWS r3 with
                | ',' :: r4 =>
                  match parseMembers fuel r4 with
                  | some (fs2, r5) => some ((String.mk k.data, v2) :: fs2, r5)
                  | none => none
                | '\x7d' :: r4 => some ([(String.mk k.data, v2)], r4)
                | _ => none
              | none => none) = some ((k, v) :: fs, rest)
        cases fs with
        | nil =>
          rw [show strMemsC ([] : List (String × JSVal)) ++ '\x7d' :: rest = '\x7d' :: rest
            from rfl]
          rw [ihP v ('\x7d' :: rest) hv.1 rfl (by omega)]
          rfl
        | cons kv2 fs2 =>
          obtain ⟨k2, v2⟩ := kv2
          have hv2 : (WfJ v2 && wfF fs2) = true := hv.2
          rw [Bool.and_eq_true] at hv2
          have hv2u := WfJ_ne_undef v2 hv2.1
          have hpfm : pvFuelF ((k2, v2) :: fs2) = 1 + pvFuel v2 + pvFuelF fs2 := rfl
          have hsfx : strMemsC ((k2, v2) :: fs2) ++ '\x7d' :: rest =
              ',' :: ((strMemsC ((k2, v2) :: fs2)).drop 1 ++ '\x7d' :: rest) := by
            rw [strMemsC_cons k2 v2 fs2 hv2u]
            simp
          rw [hsfx, ihP v (',' :: ((strMemsC ((k2, v2) :: fs2)).drop 1 ++ '\x7d' :: rest))
            hv.1 rfl (by omega)]
          show (match parseMembers fuel ((strMemsC ((k2, v2) :: fs2)).drop 1 ++ '\x7d' :: rest) with
                | some (fs3, r5) => some ((String.mk k.data, v) :: fs3, r5)
                | none => none) = some ((k, v) :: (k2, v2) :: fs2, rest)
          rw [ihR ((k2, v2) :: fs2) rest (by simp) hv.2 (by omega)]

/-- Serialized element lists always begin with the leading comma. -/
theorem strElemsC_head_comma : ∀ (x : JSVal) (xs : List JSVal), ∃ t, strElemsC (x :: xs) = ',' :: t := by
  intro x xs
  cases x <;> exact ⟨_, rfl⟩

set_option maxHeartbeats 1000000 in
/-- The fuel a serializable value needs is bounded by the length of its
serialized form. -/
theorem pvFuel_le_length : ∀ (n : Nat),
    (∀ v, pvFuel v ≤ n → WfJ v = true → pvFuel v ≤ (stringifyChars v).length) ∧
    (∀ xs, pvFuelL xs ≤ n → wfL xs = true → pvFuelL xs ≤ (strElemsC xs).length) ∧
    (∀ fs, pvFuelF fs ≤ n → wfF fs = true → pvFuelF fs ≤ (strMemsC fs).length) := by
  intro n
  induction n using Nat.strong_induction_on with
  | _ n ih =>
    refine ⟨?_, ?_, ?_⟩
    · intro v hn hwf
      cases v with
      | undef => exact absurd hwf (by rw [show WfJ JSVal.undef = false from rfl]; exact Bool.false_ne_true)
      | null => exact le_of_eq rfl |>.trans (by simp [stringifyChars, pvFuel])
      | bool b => cases b <;> simp [pvFuel, stringifyChars]
      | num n2 =>
        obtain ⟨c, t, hct, _⟩ := intChars_head n2
        show 1 ≤ (intChars n2).length
        rw [hct]
        simp
      | str s =>
        show 1 ≤ (quoteChars s).length
        simp [quoteChars]
      | arr xs =>
        have h1 : pvFuel (.arr xs) = 1 + pvFuelL xs := rfl
        have hpos : 1 ≤ pvFuel (.arr xs) := pvFuel_pos _
        have hlen : (stringifyChars (.arr xs)).length = 2 + ((strElemsC xs).drop 1).length := by
          show ('[' :: (strElemsC xs).drop 1 ++ [']']).length = _
          simp
          omega
        cases xs with
        | nil => decide
        | cons x xs2 =>
          obtain ⟨t, ht⟩ := strElemsC_head_comma x xs2
          have hmain : pvFuelL (x :: xs2) ≤ (strElemsC (x :: xs2)).length := by
            refine (ih (n - 1) (by omega)).2.1 (x :: xs2) ?_ hwf
            have h2 : pvFuelL (x :: xs2) = 1 + pvFuel x + pvFuelL xs2 := rfl
            omega
          rw [h1, hlen, ht]
          rw [ht] at hmain
          simp only [List.drop_succ_cons, List.drop_zero, List.length_cons] at *
          omega
      | obj fs =>
        have h1 : pvFuel (.obj fs) = 1 + pvFuelF fs := rfl
        have hw : (distinctKeys fs && wfF fs) = true := hwf
        rw [Bool.and_eq_true] at hw
        have hlen : (stringifyChars (.obj fs)).length = 2 + ((strMemsC fs).drop 1).length := by
          show ('\x7b' :: (strMemsC fs).drop 1 ++ ['\x7d']).length = _
          simp
          omega
        cases fs with
        | nil => decide
        | cons kv fs2 =>
          obtain ⟨k, v⟩ := kv
          have hv : (WfJ v && wfF fs2) = true := hw.2
          rw [Bool.and_eq_true] at hv
          have hvu := WfJ_ne_undef v hv.1
          have ht := strMemsC_cons k v fs2 hvu
          have hmain : pvFuelF ((k, v) :: fs2) ≤ (strMemsC ((k, v) :: fs2)).length := by
            refine (ih (n - 1) (by omega)).2.2 ((k, v) :: fs2) ?_ hw.2
            have h2 : pvFuelF ((k, v) :: fs2) = 1 + pvFuel v + pvFuelF fs2 := rfl
            omega
          rw [h1, hlen, ht]
          rw [ht] at hmain
          simp only [List.drop_succ_cons, List.drop_zero, List.length_cons] at *
          omega
    · intro xs hn hwl
      cases xs with
      | nil => simp [pvFuelL]
      | cons x xs =>
        have hx : (WfJ x && wfL xs) = true := hwl
        rw [Bool.and_eq_true] at hx
        have hxu := WfJ_ne_undef x hx.1
        have h2 : pvFuelL (x :: xs) = 1 + pvFuel x + pvFuelL xs := rfl
        have hposx := pvFuel_pos x
        have hvx : pvFuel x ≤ (stringifyChars x).length :=
          (ih (n - 1) (by omega)).1 x (by omega) hx.1
        have hlx : pvFuelL xs ≤ (strElemsC xs).length :=
          (ih (n - 1) (by omega)).2.1 xs (by omega) hx.2
        rw [strElemsC_cons x xs hxu]
        simp only [List.length_cons, List.length_append]
        omega
    · intro fs hn hwm
      cases fs with
      | nil => simp [pvFuelF]
      | cons kv fs =>
        obtain ⟨k, v⟩ := kv
        have hv : (WfJ v && wfF fs) = true := hwm
        rw [Bool.and_eq_true] at hv
        have hvu := WfJ_ne_undef v hv.1
        have h2 : pvFuelF ((k, v) :: fs) = 1 + pvFuel v + pvFuelF fs := rfl
        have hposv := pvFuel_pos v
        have hvv : pvFuel v ≤ (stringifyChars v).length :=
          (ih (n - 1) (by omega)).1 v (by omega) hv.1
        have hlf : pvFuelF fs ≤ (strMemsC fs).length :=
          (ih (n - 1) (by omega)).2.2 fs (by omega) hv.2
        rw [strMemsC_cons k v fs hvu]
        simp only [List.length_cons, List.length_append]
        omega

/-- `JSON.parse` inverts `JSON.stringify` on every serializable value. -/
theorem parseJSON_jsonStringify (v : JSVal) (h : WfJ v = true) :
    parseJSON (jsonStringify v) = some v := by
  have hbound : pvFuel v ≤ (stringifyChars v).length :=
    (pvFuel_le_length (pvFuel v)).1 v le_rfl h
  have hP := (parse_stringify_rt ((stringifyChars v).length + 1)).1 v [] h rfl (by omega)
  rw [List.append_nil] at hP
  show (match parseValue ((jsonStringify v).length + 1) (jsonStringify v).data with
        | some (v2, rest) => if skipWS rest = [] then some v2 else none
        | none => none) = some v
  rw [show (jsonStringify v).data = stringifyChars v from rfl,
    show (jsonStringify v).length = (stringifyChars v).length from rfl, hP]
  rfl

/-- Claim C8, confirmed.  For every `ResumeData` record whose feedback is a
serializable value (no `undefined` inside, distinct object keys — the values
JavaScript can persist as JSON), normalizing the JSON serialization of
`r.feedback` yields the same result as normalizing `r.feedback` directly,
for both viewer copies of `normalizeFeedback`. -/
theorem claim_C8_roundtrip_stability (r : ResumeData) (h : WfJ r.feedback = true) :
    normalizeFeedbackA (.str (jsonStringify r.feedback)) = normalizeFeedbackA r.feedback ∧
    normalizeFeedbackB (.str (jsonStringify r.feedback)) = normalizeFeedbackB r.feedback := by
  have hp : parseJSON (jsonStringify r.feedback) = some r.feedback :=
    parseJSON_jsonStringify r.feedback h
  exact ⟨normalizeFeedbackA_str_some _ _ hp, normalizeFeedbackB_str_some _ _ hp⟩

/-- Claim C8, witness: the theorem applied to a record whose feedback is
the object with `overallScore` 80. -/
theorem claim_C8_witness :
    WfJ (JSVal.obj [("overallScore", JSVal.num 80)]) = true ∧
    normalizeFeedbackA (.str (jsonStringify (JSVal.obj [("overallScore", JSVal.num 80)]))) =
      normalizeFeedbackA (JSVal.obj [("overallScore", JSVal.num 80)]) ∧
    normalizeFeedbackB (.str (jsonStringify (JSVal.obj [("overallScore", JSVal.num 80)]))) =
      normalizeFeedbackB (JSVal.obj [("overallScore", JSVal.num 80)]) :=
  ⟨rfl,
   (claim_C8_roundtrip_stability (ResumeData.mk "" "" "" "" "" ""
      (JSVal.obj [("overallScore", JSVal.num 80)])) rfl).1,
   (claim_C8_roundtrip_stability (ResumeData.mk "" "" "" "" "" ""
      (JSVal.obj [("overallScore", JSVal.num 80)])) rfl).2⟩
